import Mathlib

/-!
Shallow embedding of the FSBO scraper core: address normalization
(`src/utils/address_normalizer.py`), the dedup store and session history
(`src/storage/database.py`), retry/backoff and throttling
(`src/utils/rate_limiter.py`), and the per-source orchestration
(`src/main.py`, `src/scrapers/base_scraper.py`), together with proofs about
the embedded operations.

Python strings are modelled as lists of character codes (`List Nat`) over the
ASCII fragment the code manipulates; `str.lower`, `str.upper`, `str.title`,
`str.split`, `str.strip`, `str.isupper` and the `re.sub` word-boundary
substitutions are embedded with their ASCII semantics.
-/

namespace FSBO

/-- Python string model: a list of character codes. -/
abbrev Str := List Nat

/-- Character codes of a Lean string literal, used to write concrete inputs. -/
def ascii (s : String) : Str := s.toList.map Char.toNat

/-- Whitespace for Python's `str.split()` / `str.strip()` (ASCII fragment:
space, tab, newline, carriage return, vertical tab, form feed). -/
def isSpaceC (c : Nat) : Bool :=
  decide (c = 32 ∨ c = 9 ∨ c = 10 ∨ c = 13 ∨ c = 11 ∨ c = 12)

/-- ASCII uppercase letter. -/
def isUpperC (c : Nat) : Bool := decide (65 ≤ c ∧ c ≤ 90)

/-- ASCII lowercase letter. -/
def isLowerC (c : Nat) : Bool := decide (97 ≤ c ∧ c ≤ 122)

/-- ASCII letter (a cased character). -/
def isAlphaC (c : Nat) : Bool := isUpperC c || isLowerC c

/-- ASCII digit. -/
def isDigitC (c : Nat) : Bool := decide (48 ≤ c ∧ c ≤ 57)

/-- ASCII alphanumeric character. -/
def isAlnumC (c : Nat) : Bool := isAlphaC c || isDigitC c

/-- Regex word character `\w` (ASCII fragment: alphanumeric or underscore). -/
def isWordC (c : Nat) : Bool := isAlnumC c || decide (c = 95)

/-- Lower-case one character, as Python `str.lower` does on ASCII. -/
def lowerC (c : Nat) : Nat := if isUpperC c then c + 32 else c

/-- Upper-case one character, as Python `str.upper` does on ASCII. -/
def upperC (c : Nat) : Nat := if isLowerC c then c - 32 else c

/-- Python `str.lower()` (ASCII). -/
def pyLower (s : Str) : Str := s.map lowerC

/-- Python `str.upper()` (ASCII). -/
def pyUpper (s : Str) : Str := s.map upperC

/-- Python `str.isupper()`: at least one cased character and no cased
character that is lowercase (ASCII fragment, where cased = letter). -/
def pyIsUpper (s : Str) : Bool :=
  s.any isAlphaC && s.all (fun c => !isAlphaC c || isUpperC c)

/-- Python `str.strip()`: drop leading and trailing whitespace. -/
def pyStrip (s : Str) : Str :=
  ((s.dropWhile isSpaceC).reverse.dropWhile isSpaceC).reverse

/-- Python `str.split()` with no separator: split on whitespace runs,
discarding empty fields. -/
def pySplit : Str → List Str
  | [] => []
  | c :: cs =>
    if isSpaceC c then pySplit cs
    else (c :: cs.takeWhile (fun d => !isSpaceC d)) ::
      pySplit (cs.dropWhile (fun d => !isSpaceC d))
termination_by s => s.length
decreasing_by
  · simp only [List.length_cons]
    omega
  · have h : (List.dropWhile (fun d => !isSpaceC d) cs).Sublist cs :=
      List.dropWhile_sublist _
    have h2 := h.length_le
    simp only [List.length_cons]
    omega

/-- `' '.join(words)` (code 32 is the space character). -/
def joinSpace : List Str → Str
  | [] => []
  | [w] => w
  | w :: ws => w ++ 32 :: joinSpace ws

/-- Python `str.title()` helper: scan with a flag saying whether the previous
character was a letter; a letter after a non-letter is upper-cased, a letter
after a letter is lower-cased. -/
def pyTitleAux (prevAlpha : Bool) : Str → Str
  | [] => []
  | c :: cs =>
    (if isAlphaC c then (if prevAlpha then lowerC c else upperC c) else c) ::
      pyTitleAux (isAlphaC c) cs

/-- Python `str.title()` (ASCII). -/
def pyTitle (s : Str) : Str := pyTitleAux false s

/-- Character equality, case-insensitively when `ci` is set (regex
`re.IGNORECASE`). -/
def ciEqC (ci : Bool) (a b : Nat) : Bool :=
  if ci then decide (lowerC a = lowerC b) else decide (a = b)

/-- Does the pattern (first argument) match a prefix of the text, literally,
up to case when `ci` is set? -/
def matchPre (ci : Bool) : Str → Str → Bool
  | [], _ => true
  | _ :: _, [] => false
  | p :: ps, c :: cs => ciEqC ci p c && matchPre ci ps cs

/-- Regex `\b` at offset `k` of `s`, for a match ending at `k`: the next
character (if any) is not a word character. -/
def boundaryOk (s : Str) (k : Nat) : Bool :=
  match s.drop k with
  | [] => true
  | c :: _ => !isWordC c

/-- Try an ordered list of (pattern, replacement) alternatives at the start of
`s`, exactly as a regex alternation of literal words followed by `\b` does:
the first alternative whose pattern is a prefix of `s` (up to case when `ci`)
and is followed by a word boundary wins. -/
def tryAlts (ci : Bool) : List (Str × Str) → Str → Option (Str × Str)
  | [], _ => none
  | pr :: alts, s =>
    if pr.1 ≠ [] && matchPre ci pr.1 s && boundaryOk s pr.1.length
    then some (pr.2, pr.1)
    else tryAlts ci alts s

/-- Scan of `re.sub(r'\b(p1|p2|...)\b', repl, s)` over the text: `prevW` says
whether the character before the current position is a word character (so `\b`
holds exactly when `prevW` is false). After a match the scan resumes past the
matched text; the patterns of the source are nonempty words, so a match
consumes the pattern's length (at least one character). -/
def subScan (ci : Bool) (alts : List (Str × Str)) : Bool → Str → Str
  | _, [] => []
  | prevW, c :: cs =>
    if prevW then c :: subScan ci alts (isWordC c) cs
    else
      match tryAlts ci alts (c :: cs) with
      | some (r, p) => r ++ subScan ci alts true (cs.drop (p.length - 1))
      | none => c :: subScan ci alts (isWordC c) cs
termination_by _ s => s.length
decreasing_by
  · simp only [List.length_cons]; omega
  · have h := cs.length_drop (p.length - 1)
    simp only [List.length_cons]; omega
  · simp only [List.length_cons]; omega

/-- One `re.sub` pass with word-boundary literal alternatives over the whole
string. -/
def reSub (ci : Bool) (alts : List (Str × Str)) (s : Str) : Str :=
  subScan ci alts false s

/-- The directional words of `normalize_street`'s first `re.sub`, in the
pattern's alternation order. -/
def DIRECTIONAL_WORDS : List Str :=
  [ascii "North", ascii "South", ascii "East", ascii "West",
   ascii "Northeast", ascii "Northwest", ascii "Southeast", ascii "Southwest"]

/-- `re.sub(r'\b(North|South|East|West|Northeast|Northwest|Southeast|Southwest)\b',
lambda m: m.group(1)[:1], street)`: each matched directional word is replaced
by the first character of the matched text. -/
def subDirectionals (s : Str) : Str :=
  reSub false (DIRECTIONAL_WORDS.map (fun p => (p, p.take 1))) s

/-- `AddressNormalizer.STREET_TYPES` in the dict's insertion order (the
duplicated `'way'` literal collapses to one entry). -/
def STREET_TYPES : List (Str × Str) :=
  [(ascii "street", ascii "St"), (ascii "st", ascii "St"),
   (ascii "avenue", ascii "Ave"), (ascii "ave", ascii "Ave"),
   (ascii "road", ascii "Rd"), (ascii "rd", ascii "Rd"),
   (ascii "drive", ascii "Dr"), (ascii "dr", ascii "Dr"),
   (ascii "boulevard", ascii "Blvd"), (ascii "blvd", ascii "Blvd"),
   (ascii "court", ascii "Ct"), (ascii "ct", ascii "Ct"),
   (ascii "lane", ascii "Ln"), (ascii "ln", ascii "Ln"),
   (ascii "way", ascii "Way"),
   (ascii "circle", ascii "Cir"), (ascii "cir", ascii "Cir"),
   (ascii "trail", ascii "Trl"), (ascii "trl", ascii "Trl"),
   (ascii "parkway", ascii "Pkwy"), (ascii "pkwy", ascii "Pkwy"),
   (ascii "plaza", ascii "Plz"), (ascii "plz", ascii "Plz"),
   (ascii "terrace", ascii "Ter"), (ascii "ter", ascii "Ter"),
   (ascii "highway", ascii "Hwy"), (ascii "hwy", ascii "Hwy")]

/-- The loop `for full, abbrev in STREET_TYPES.items(): street =
re.sub(rf'\b\x7bfull\x7d\b', abbrev, street, flags=re.IGNORECASE)`. -/
def subStreetTypes (s : Str) : Str :=
  STREET_TYPES.foldl (fun acc pr => reSub true [pr] acc) s

/-- `AddressNormalizer.normalize_street`. -/
def normalize_street (street : Str) : Str :=
  if street = [] then []
  else pyStrip (subStreetTypes (subDirectionals (pyTitle (joinSpace (pySplit street)))))

/-- `AddressNormalizer.normalize_city`. -/
def normalize_city (city : Str) : Str :=
  if city = [] then []
  else pyStrip (pyTitle (joinSpace (pySplit city)))

/-- `AddressNormalizer.STATE_ABBREV`. -/
def STATE_ABBREV : List (Str × Str) :=
  [(ascii "alabama", ascii "AL"), (ascii "alaska", ascii "AK"),
   (ascii "arizona", ascii "AZ"), (ascii "arkansas", ascii "AR"),
   (ascii "california", ascii "CA"), (ascii "colorado", ascii "CO"),
   (ascii "connecticut", ascii "CT"), (ascii "delaware", ascii "DE"),
   (ascii "florida", ascii "FL"), (ascii "georgia", ascii "GA"),
   (ascii "hawaii", ascii "HI"), (ascii "idaho", ascii "ID"),
   (ascii "illinois", ascii "IL"), (ascii "indiana", ascii "IN"),
   (ascii "iowa", ascii "IA"), (ascii "kansas", ascii "KS"),
   (ascii "kentucky", ascii "KY"), (ascii "louisiana", ascii "LA"),
   (ascii "maine", ascii "ME"), (ascii "maryland", ascii "MD"),
   (ascii "massachusetts", ascii "MA"), (ascii "michigan", ascii "MI"),
   (ascii "minnesota", ascii "MN"), (ascii "mississippi", ascii "MS"),
   (ascii "missouri", ascii "MO"), (ascii "montana", ascii "MT"),
   (ascii "nebraska", ascii "NE"), (ascii "nevada", ascii "NV"),
   (ascii "new hampshire", ascii "NH"), (ascii "new jersey", ascii "NJ"),
   (ascii "new mexico", ascii "NM"), (ascii "new york", ascii "NY"),
   (ascii "north carolina", ascii "NC"), (ascii "north dakota", ascii "ND"),
   (ascii "ohio", ascii "OH"), (ascii "oklahoma", ascii "OK"),
   (ascii "oregon", ascii "OR"), (ascii "pennsylvania", ascii "PA"),
   (ascii "rhode island", ascii "RI"), (ascii "south carolina", ascii "SC"),
   (ascii "south dakota", ascii "SD"), (ascii "tennessee", ascii "TN"),
   (ascii "texas", ascii "TX"), (ascii "utah", ascii "UT"),
   (ascii "vermont", ascii "VT"), (ascii "virginia", ascii "VA"),
   (ascii "washington", ascii "WA"), (ascii "west virginia", ascii "WV"),
   (ascii "wisconsin", ascii "WI"), (ascii "wyoming", ascii "WY"),
   (ascii "district of columbia", ascii "DC")]

/-- `AddressNormalizer.normalize_state` (the `len == 2 and isupper()` branch
is kept exactly as written: it tests the already lower-cased string). -/
def normalize_state (state : Str) : Str :=
  if state = [] then []
  else
    let t := pyLower (pyStrip state)
    if t.length = 2 ∧ pyIsUpper t then pyUpper t
    else
      match STATE_ABBREV.find? (fun pr => decide (pr.1 = t)) with
      | some pr => pr.2
      | none => pyUpper t

/-- `AddressNormalizer.normalize_zip` (code 45 is the hyphen). -/
def normalize_zip (zip_code : Str) : Str :=
  if zip_code = [] then []
  else
    let digits := zip_code.filter isDigitC
    if 9 ≤ digits.length then digits.take 5 ++ 45 :: (digits.drop 5).take 4
    else if digits.length = 5 then digits
    else []

/-- The dictionary `normalize_address` returns. -/
structure Address where
  street : Str
  city : Str
  state : Str
  zip_code : Str
deriving DecidableEq

/-- `AddressNormalizer.normalize_address`. -/
def normalize_address (street city state zip_code : Str) : Address :=
  { street := normalize_street street, city := normalize_city city,
    state := normalize_state state, zip_code := normalize_zip zip_code }

/-- `AddressNormalizer.is_valid_address`. -/
def is_valid_address (street city state zip_code : Str) : Bool :=
  !street.isEmpty && !city.isEmpty && !state.isEmpty && !zip_code.isEmpty

/-- The string hashed by `FSBODatabase._generate_hash`:
`f"{street.lower()}{city.lower()}{state.lower()}{zip_code}"`. -/
def hashInput (street city state zip_code : Str) : Str :=
  pyLower street ++ pyLower city ++ pyLower state ++ zip_code

/-- `FSBODatabase._generate_hash`, parameterized by the `hashlib.md5`
hex digest function (a fixed but arbitrary function of the input string). -/
def generate_hash (md5 : Str → Str) (street city state zip_code : Str) : Str :=
  md5 (hashInput street city state zip_code)

/-- One row of the `listings` table. -/
structure Row where
  id : Nat
  street : Str
  city : Str
  state : Str
  zip_code : Str
  listing_url : Option Str
  source_website : Str
  scraped_at : Nat
  last_updated : Nat
  listing_hash : Str
  is_exported : Bool
  notes : Option Str
deriving DecidableEq

/-- One row of the `scrape_history` table. -/
structure Session where
  id : Nat
  source_website : Str
  scrape_start : Nat
  scrape_end : Nat
  listings_found : Nat
  listings_new : Nat
  listings_duplicates : Nat
  errors : Nat
  status : Str
  error_message : Option Str
deriving DecidableEq

/-- The SQLite database state: the two tables and their AUTOINCREMENT
counters (timestamps are modelled as the `now : Nat` instants passed in). -/
structure DB where
  rows : List Row
  history : List Session
  nextRowId : Nat
  nextSessionId : Nat
deriving DecidableEq

/-- A fresh database, as `_init_database` leaves it. -/
def emptyDB : DB := { rows := [], history := [], nextRowId := 1, nextSessionId := 1 }

/-- The stored fingerprints, over which `listing_hash`'s UNIQUE constraint
ranges. -/
def dbHashes (db : DB) : List Str := db.rows.map Row.listing_hash

/-- `FSBODatabase.add_listing`: INSERT the row, or catch the
`sqlite3.IntegrityError` raised by the UNIQUE constraint on `listing_hash`
and return `None` with the store unchanged. -/
def add_listing (md5 : Str → Str) (db : DB) (now : Nat) (street city state zip_code : Str)
    (listing_url : Option Str) (source_website : Str) (notes : Option Str) :
    DB × Option Nat :=
  let h := generate_hash md5 street city state zip_code
  if h ∈ dbHashes db then (db, none)
  else
    ({ db with
        rows := db.rows ++
          [{ id := db.nextRowId, street, city, state, zip_code, listing_url,
             source_website, scraped_at := now, last_updated := now,
             listing_hash := h, is_exported := false, notes }],
        nextRowId := db.nextRowId + 1 },
     some db.nextRowId)

/-- One listing dict as passed to `bulk_add_listings`. -/
structure RawListing where
  street : Str
  city : Str
  state : Str
  zip_code : Str
  listing_url : Option Str
  source_website : Str
  notes : Option Str
deriving DecidableEq

/-- The fingerprint of one listing dict. -/
def fp (md5 : Str → Str) (l : RawListing) : Str :=
  generate_hash md5 l.street l.city l.state l.zip_code

/-- `FSBODatabase.bulk_add_listings`: fold `add_listing` over the batch,
counting inserted rows and skipped duplicates. -/
def bulk_add_listings (md5 : Str → Str) (now : Nat) : DB → List RawListing → DB × Nat × Nat
  | db, [] => (db, 0, 0)
  | db, l :: rest =>
    match add_listing md5 db now l.street l.city l.state l.zip_code
        l.listing_url l.source_website l.notes with
    | (db', some _) =>
      let r := bulk_add_listings md5 now db' rest
      (r.1, r.2.1 + 1, r.2.2)
    | (db', none) =>
      let r := bulk_add_listings md5 now db' rest
      (r.1, r.2.1, r.2.2 + 1)

/-- The UPDATE applied by `mark_as_exported` to one matched row. -/
def setExported (now : Nat) (r : Row) : Row :=
  { r with is_exported := true, last_updated := now }

/-- `FSBODatabase.mark_as_exported`: one UPDATE per listed id. -/
def mark_as_exported (db : DB) (listing_ids : List Nat) (now : Nat) : DB :=
  { db with
      rows := listing_ids.foldl
        (fun rs i => rs.map (fun r => if r.id = i then setExported now r else r))
        db.rows }

/-- `FSBODatabase.record_scrape_session`: INSERT one `scrape_history` row and
return its id. -/
def record_scrape_session (db : DB) (now : Nat) (source_website : Str)
    (listings_found listings_new listings_duplicates errors : Nat)
    (error_message : Option Str) (status : Str) : DB × Nat :=
  ({ db with
      history := db.history ++
        [{ id := db.nextSessionId, source_website, scrape_start := now,
           scrape_end := now, listings_found, listings_new,
           listings_duplicates, errors, status, error_message }],
      nextSessionId := db.nextSessionId + 1 },
   db.nextSessionId)

/-- `FSBODatabase.get_listings`: filter by source and by the exported flag,
order by `scraped_at` descending, then apply LIMIT/OFFSET when a limit is
given. -/
def get_listings (db : DB) (limit : Option Nat) (offset : Nat)
    (source : Option Str) (exported : Bool) : List Row :=
  let filtered := db.rows.filter (fun r =>
    (match source with
     | some s => decide (r.source_website = s)
     | none => true)
    && (if exported then r.is_exported else !r.is_exported))
  let sorted := filtered.mergeSort (fun a b => decide (b.scraped_at ≤ a.scraped_at))
  match limit with
  | some n => (sorted.drop offset).take n
  | none => sorted

/-- `FSBODatabase.clear_all_data`: DELETE FROM listings; DELETE FROM
scrape_history. -/
def clear_all_data (db : DB) : DB := { db with rows := [], history := [] }

/-- One CSV data row of `export_to_csv` (the fields of `fieldnames`, in
order; a `None` url is written as the empty field). -/
def csvRow (r : Row) : Nat × Str × Str × Str × Str × Option Str × Str × Nat :=
  (r.id, r.street, r.city, r.state, r.zip_code, r.listing_url, r.source_website, r.scraped_at)

/-- `FSBODatabase.export_to_csv`: read the listings via `get_listings` and
render them; when there are none, log a warning and write nothing. The
database component of the result is the state after the call — the source
performs no INSERT or UPDATE here, only the file write. -/
def export_to_csv (db : DB) (source : Option Str) (exported_only : Bool) :
    DB × Option (List (Nat × Str × Str × Str × Str × Option Str × Str × Nat)) :=
  let listings := get_listings db none 0 source exported_only
  if listings.isEmpty then (db, none)
  else (db, some (listings.map csvRow))

/-- The ways a wrapped operation can fail, with the classification the spec
talks about (network error, timeout, HTTP status, anything else). -/
inductive FailureKind where
  | network
  | timeout
  | status (code : Nat)
  | other (tag : Nat)
deriving DecidableEq

/-- `RetryConfig` of `rate_limiter.py` (backoff factor 2.0 modelled as the
rational 2). -/
structure RetryConfig where
  max_retries : Nat := 3
  backoff_factor : ℚ := 2
  retry_on_status : List Nat := [408, 429, 500, 502, 503, 504]

/-- `RetryConfig()` with all defaults. -/
def defaultRetryConfig : RetryConfig := {}

/-- Modelled from the spec: the retryability classification (`FetchError`
taxonomy — network failure, timeout, or response status in the configured
retryable set). No code in `retry_with_backoff` implements this test; it is
stated here only to express the claim about it. -/
def retryableClass (cfg : RetryConfig) : FailureKind → Bool
  | .network => true
  | .timeout => true
  | .status code => decide (code ∈ cfg.retry_on_status)
  | .other _ => false

/-- The loop body of `retry_with_backoff` from attempt number `attempt` on:
`op k` is the outcome of the k-th attempt of the wrapped call. Returns the
final outcome, the backoff sleeps performed (in order), and the number of
attempts made. -/
def retryFrom {α : Type} (cfg : RetryConfig) (op : Nat → Except FailureKind α)
    (attempt : Nat) : Except FailureKind α × List ℚ × Nat :=
  match op attempt with
  | .ok v => (.ok v, [], 1)
  | .error e =>
    if attempt < cfg.max_retries then
      let r := retryFrom cfg op (attempt + 1)
      (r.1, cfg.backoff_factor ^ attempt :: r.2.1, r.2.2 + 1)
    else (.error e, [], 1)
termination_by cfg.max_retries - attempt

/-- `retry_with_backoff(config)` applied to a wrapped operation: attempts
start at 0. -/
def retry_with_backoff {α : Type} (cfg : RetryConfig) (op : Nat → Except FailureKind α) :
    Except FailureKind α × List ℚ × Nat :=
  retryFrom cfg op 0

/-- `RequestThrottler`: per-domain request instants (instants as rationals). -/
structure RequestThrottler where
  max_requests_per_minute : Nat
  request_times : Str → List ℚ

/-- `RequestThrottler(max_requests_per_minute=cap)`. -/
def newThrottler (cap : Nat) : RequestThrottler :=
  { max_requests_per_minute := cap, request_times := fun _ => [] }

/-- `RequestThrottler.should_throttle`: prune the domain's instants to the
trailing 60-second window (strictly newer than `now - 60`), store the pruned
list, and report whether the count has reached the cap. -/
def should_throttle (th : RequestThrottler) (domain : Str) (now : ℚ) :
    RequestThrottler × Bool :=
  let cutoff := now - 60
  let pruned := (th.request_times domain).filter (fun t => decide (cutoff < t))
  ({ th with request_times := fun d => if d = domain then pruned else th.request_times d },
   decide (th.max_requests_per_minute ≤ pruned.length))

/-- `RequestThrottler.record_request`: append the current instant for the
domain. -/
def record_request (th : RequestThrottler) (domain : Str) (now : ℚ) :
    RequestThrottler :=
  { th with request_times := fun d =>
      if d = domain then th.request_times d ++ [now] else th.request_times d }

/-- One raw listing candidate extracted from a page (`parse_listings`
output; absent fields default to the empty string). -/
structure RawCandidate where
  street : Str
  city : Str
  state : Str
  zip_code : Str
  listing_url : Str
deriving DecidableEq

/-- The per-target loop of `BaseScraper.scrape`: each target either yields
its extracted candidates or fails (its exception is caught, logged and the
loop continues with the next target). -/
def collectListings (targets : List (Except Unit (List RawCandidate))) :
    List RawCandidate :=
  targets.foldl
    (fun acc t => match t with | .ok ls => acc ++ ls | .error _ => acc) []

/-- `BaseScraper._normalize_listing`: normalize the address, drop the
candidate when a required component is empty. -/
def normalizeListing (source_name : Str) (c : RawCandidate) : Option RawListing :=
  let a := normalize_address c.street c.city c.state c.zip_code
  if is_valid_address a.street a.city a.state a.zip_code then
    some { street := a.street, city := a.city, state := a.state,
           zip_code := a.zip_code, listing_url := some c.listing_url,
           source_website := source_name, notes := none }
  else none

/-- `BaseScraper.scrape` after a successful discovery: collect candidates
from the targets, then normalize and filter. -/
def scraperScrape (source_name : Str)
    (targets : List (Except Unit (List RawCandidate))) : List RawListing :=
  (collectListings targets).filterMap (normalizeListing source_name)

/-- The success path of `main.scrape` for one source: persist the scraped
listings and record one completed session (the `errors=0, status='completed'`
literals of the call site). -/
def runSourceSuccess (md5 : Str → Str) (db : DB) (now : Nat) (source_name : Str)
    (targets : List (Except Unit (List RawCandidate))) : DB :=
  let listings := scraperScrape source_name targets
  let r := bulk_add_listings md5 now db listings
  (record_scrape_session r.1 now source_name listings.length r.2.1 r.2.2 0 none
    (ascii "completed")).1

/-- One iteration of `main.scrape`'s per-source loop: the try-block either
runs to completion with the scraped listings, or raises, in which case the
except-block records one failed session with zero counts and one error. -/
def runSource (md5 : Str → Str) (db : DB) (now : Nat) (source_name : Str)
    (outcome : Except Str (List (Except Unit (List RawCandidate)))) : DB :=
  match outcome with
  | .ok targets => runSourceSuccess md5 db now source_name targets
  | .error msg =>
    (record_scrape_session db now source_name 0 0 0 1 (some msg) (ascii "failed")).1

/-- Example listing dict A (concrete data for witnesses). -/
def listingA : RawListing :=
  { street := ascii "123 Main St", city := ascii "Springfield",
    state := ascii "IL", zip_code := ascii "62701", listing_url := none,
    source_website := ascii "fsbo.com", notes := none }

/-- Example listing dict B, a different address than A. -/
def listingB : RawListing :=
  { street := ascii "9 Oak Ave", city := ascii "Springfield",
    state := ascii "IL", zip_code := ascii "62701", listing_url := none,
    source_website := ascii "fsbo.com", notes := none }

/-- Example run: two discovered targets, the first fails to fetch after its
retries, the second yields one valid candidate. -/
def exampleTargets : List (Except Unit (List RawCandidate)) :=
  [Except.error (),
   Except.ok [{ street := ascii "123 Main St", city := ascii "Springfield",
                state := ascii "IL", zip_code := ascii "62701",
                listing_url := ascii "http e" }]]

/-- A whole-token match: the pattern covers the token exactly (up to case
when `ci`). -/
def matchWhole (ci : Bool) (p w : Str) : Bool :=
  decide (p.length = w.length) && matchPre ci p w

/-- The effect of one word-boundary alternation pass on one whole token. -/
def tokenSub (ci : Bool) (alts : List (Str × Str)) (w : Str) : Str :=
  match alts.find? (fun pr => matchWhole ci pr.1 w) with
  | some pr => pr.2
  | none => w

/-- What the directional pass does to one (title-cased) token: a token that
is exactly one of the directional words is replaced by its FIRST letter
(`m.group(1)[:1]`), so Northeast becomes N, not NE. -/
def dirToken (w : Str) : Str :=
  match DIRECTIONAL_WORDS.find? (fun d => decide (d = w)) with
  | some d => d.take 1
  | none => w

/-- What the street-type passes do to one token: each pass in dict order
replaces the token when it equals the pass's key case-insensitively. -/
def streetTypeToken (w : Str) : Str :=
  STREET_TYPES.foldl (fun w pr => if pyLower w = pyLower pr.1 then pr.2 else w) w

/-- The per-token effect of `normalize_street` on a whitespace-separated
alphanumeric token. -/
def streetToken (w : Str) : Str :=
  streetTypeToken (dirToken (pyTitle w))

/-! ## Character-level lemmas -/

theorem lowerC_spec (c : Nat) :
    (65 ≤ c ∧ c ≤ 90 ∧ lowerC c = c + 32) ∨ (¬(65 ≤ c ∧ c ≤ 90) ∧ lowerC c = c) := by
  unfold lowerC isUpperC
  by_cases h : 65 ≤ c ∧ c ≤ 90
  · exact Or.inl ⟨h.1, h.2, by rw [if_pos (decide_eq_true h)]⟩
  · exact Or.inr ⟨h, by rw [if_neg (by simpa using h)]⟩

theorem upperC_spec (c : Nat) :
    (97 ≤ c ∧ c ≤ 122 ∧ upperC c = c - 32) ∨ (¬(97 ≤ c ∧ c ≤ 122) ∧ upperC c = c) := by
  unfold upperC isLowerC
  by_cases h : 97 ≤ c ∧ c ≤ 122
  · exact Or.inl ⟨h.1, h.2, by rw [if_pos (decide_eq_true h)]⟩
  · exact Or.inr ⟨h, by rw [if_neg (by simpa using h)]⟩

theorem isSpaceC_lowerC (c : Nat) : isSpaceC (lowerC c) = isSpaceC c := by
  rw [Bool.eq_iff_iff]
  simp only [isSpaceC, decide_eq_true_eq]
  rcases lowerC_spec c with ⟨h1, h2, h3⟩ | ⟨h1, h3⟩ <;> rw [h3] <;> omega

theorem isAlphaC_lowerC (c : Nat) : isAlphaC (lowerC c) = isAlphaC c := by
  rw [Bool.eq_iff_iff]
  simp only [isAlphaC, isUpperC, isLowerC, Bool.or_eq_true, decide_eq_true_eq]
  rcases lowerC_spec c with ⟨h1, h2, h3⟩ | ⟨h1, h3⟩ <;> rw [h3] <;> omega

theorem isUpperC_lowerC_of_alpha (c : Nat) (h : isAlphaC c = true) :
    isUpperC (lowerC c) = false := by
  simp only [isAlphaC, isUpperC, isLowerC, Bool.or_eq_true, decide_eq_true_eq] at h
  simp only [isUpperC, decide_eq_false_iff_not]
  rcases lowerC_spec c with ⟨h1, h2, h3⟩ | ⟨h1, h3⟩ <;> rw [h3] <;> omega

theorem upperC_lowerC_congr {a b : Nat} (h : lowerC a = lowerC b) :
    upperC a = upperC b := by
  rcases lowerC_spec a with ⟨ha1, ha2, ha3⟩ | ⟨ha1, ha3⟩ <;>
    rcases lowerC_spec b with ⟨hb1, hb2, hb3⟩ | ⟨hb1, hb3⟩ <;>
    rw [ha3, hb3] at h <;>
    rcases upperC_spec a with ⟨ua1, ua2, ua3⟩ | ⟨ua1, ua3⟩ <;>
    rcases upperC_spec b with ⟨ub1, ub2, ub3⟩ | ⟨ub1, ub3⟩ <;>
    rw [ua3, ub3] <;> omega

theorem isAlphaC_congr_of_lowerC {a b : Nat} (h : lowerC a = lowerC b) :
    isAlphaC a = isAlphaC b := by
  rw [Bool.eq_iff_iff]
  simp only [isAlphaC, isUpperC, isLowerC, Bool.or_eq_true, decide_eq_true_eq]
  rcases lowerC_spec a with ⟨ha1, ha2, ha3⟩ | ⟨ha1, ha3⟩ <;>
    rcases lowerC_spec b with ⟨hb1, hb2, hb3⟩ | ⟨hb1, hb3⟩ <;>
    rw [ha3, hb3] at h <;> omega

theorem eq_of_lowerC_eq_of_not_alpha {a b : Nat} (h : lowerC a = lowerC b)
    (ha : isAlphaC a = false) : a = b := by
  simp only [isAlphaC, isUpperC, isLowerC, Bool.or_eq_false_iff,
    decide_eq_false_iff_not] at ha
  rcases lowerC_spec a with ⟨ha1, ha2, ha3⟩ | ⟨ha1, ha3⟩ <;>
    rcases lowerC_spec b with ⟨hb1, hb2, hb3⟩ | ⟨hb1, hb3⟩ <;>
    rw [ha3, hb3] at h <;> omega

theorem lowerC_congr_title {a b : Nat} (h : lowerC a = lowerC b) :
    (if isAlphaC a = true then (fun prev : Bool => if prev then lowerC a else upperC a)
     else (fun _ => a)) =
    (if isAlphaC b = true then (fun prev : Bool => if prev then lowerC b else upperC b)
     else (fun _ => b)) := by
  rw [isAlphaC_congr_of_lowerC h]
  by_cases hb : isAlphaC b = true
  · simp only [hb, if_true, h, upperC_lowerC_congr h]
  · simp only [hb, if_false,
      eq_of_lowerC_eq_of_not_alpha h (by rw [isAlphaC_congr_of_lowerC h, Bool.eq_false_iff]; exact hb)]

/-! ## `normalize_state` (claim C7) -/

theorem pyIsUpper_pyLower (u : Str) : pyIsUpper (pyLower u) = false := by
  simp only [pyIsUpper, pyLower, List.any_map, List.all_map, Bool.and_eq_false_iff]
  by_cases h : u.any (isAlphaC ∘ lowerC) = true
  · right
    rw [List.all_eq_false]
    rw [List.any_eq_true] at h
    obtain ⟨c, hc, hca⟩ := h
    refine ⟨c, hc, ?_⟩
    simp only [Function.comp] at hca ⊢
    have halpha : isAlphaC c = true := by rw [← isAlphaC_lowerC]; exact hca
    simp only [isUpperC_lowerC_of_alpha c halpha, hca, Bool.not_true, Bool.false_or,
      Bool.false_eq_true, not_false_eq_true]
  · left
    exact Bool.eq_false_iff.mpr h

theorem state_keys_lookup :
    ∀ p ∈ STATE_ABBREV, STATE_ABBREV.find? (fun pr => decide (pr.1 = p.1)) = some p := by
  decide

theorem state_codes_miss :
    ∀ p ∈ STATE_ABBREV,
      STATE_ABBREV.find? (fun pr => decide (pr.1 = pyLower p.2)) = none := by
  decide

theorem state_upper_lower :
    ∀ p ∈ STATE_ABBREV, pyUpper (pyLower p.2) = p.2 := by
  decide

theorem state_keys_ne_nil : ∀ p ∈ STATE_ABBREV, p.1 ≠ [] ∧ p.2 ≠ [] := by
  decide

theorem normalize_state_code_fixed :
    ∀ p ∈ STATE_ABBREV, normalize_state p.2 = p.2 := by
  decide

/-- C7: for every recognized full state name in any letter case (and with any
surrounding whitespace) and every valid 2-letter code in any letter case,
`normalize_state` returns the table's uppercase 2-letter abbreviation and is
idempotent there. -/
theorem normalize_state_correct (s : Str) (p : Str × Str) (hp : p ∈ STATE_ABBREV)
    (h : pyLower (pyStrip s) = p.1 ∨ pyLower (pyStrip s) = pyLower p.2) :
    normalize_state s = p.2 ∧
      normalize_state (normalize_state s) = normalize_state s := by
  have hne : s ≠ [] := by
    intro hs
    rcases h with h | h <;> rw [hs] at h <;> simp [pyStrip, pyLower] at h
    · exact (state_keys_ne_nil p hp).1 h
    · have := (state_keys_ne_nil p hp).2
      cases hc : p.2 with
      | nil => exact this hc
      | cons a t => rw [hc] at h; simp [pyLower] at h
  have hmain : normalize_state s = p.2 := by
    rw [normalize_state, if_neg hne]
    have hdead : ¬((pyLower (pyStrip s)).length = 2 ∧ pyIsUpper (pyLower (pyStrip s))) := by
      intro hcon
      rw [pyIsUpper_pyLower] at hcon
      exact Bool.false_ne_true hcon.2
    rw [if_neg hdead]
    rcases h with h | h
    · rw [h, state_keys_lookup p hp]
    · rw [h, state_codes_miss p hp, state_upper_lower p hp]
  exact ⟨hmain, by rw [hmain, normalize_state_code_fixed p hp]⟩

/-- C7 witness: "iLLinois" normalizes to "IL" and normalizing again is a
no-op; likewise the code "ca" gives "CA". -/
theorem normalize_state_correct_witness :
    (normalize_state (ascii "iLLinois") = ascii "IL" ∧
      normalize_state (normalize_state (ascii "iLLinois")) =
        normalize_state (ascii "iLLinois")) ∧
    (normalize_state (ascii "ca") = ascii "CA" ∧
      normalize_state (normalize_state (ascii "ca")) =
        normalize_state (ascii "ca")) :=
  ⟨normalize_state_correct (ascii "iLLinois") (ascii "illinois", ascii "IL")
      (by decide) (Or.inl (by decide)),
   normalize_state_correct (ascii "ca") (ascii "california", ascii "CA")
      (by decide) (Or.inr (by decide))⟩

/-! ## Throttler (claim C8) -/

/-- Record a sequence of request instants for one domain, in order. -/
def recordAll (th : RequestThrottler) (domain : Str) (reqs : List ℚ) :
    RequestThrottler :=
  reqs.foldl (fun t r => record_request t domain r) th

theorem recordAll_times (domain : Str) (reqs : List ℚ) :
    ∀ th : RequestThrottler,
      (recordAll th domain reqs).request_times domain =
        th.request_times domain ++ reqs := by
  induction reqs with
  | nil => intro th; simp [recordAll]
  | cons r rs ih =>
    intro th
    show (recordAll (record_request th domain r) domain rs).request_times domain = _
    rw [ih]
    simp [record_request]

theorem recordAll_cap (domain : Str) (reqs : List ℚ) :
    ∀ th : RequestThrottler,
      (recordAll th domain reqs).max_requests_per_minute =
        th.max_requests_per_minute := by
  induction reqs with
  | nil => intro th; rfl
  | cons r rs ih => intro th; exact ih (record_request th domain r)

/-- C8: after any sequence of recorded request instants for a domain,
`should_throttle` answers true exactly when the number of recorded instants
strictly inside the trailing 60-second window has reached the configured
per-minute cap — so it is false below the cap, true once the cap-th request
in the window is recorded, and false again once the instants age out of the
window. -/
theorem should_throttle_iff_window_count (cap : Nat) (domain : Str)
    (reqs : List ℚ) (now : ℚ) :
    (should_throttle (recordAll (newThrottler cap) domain reqs) domain now).2 =
      decide (cap ≤ (reqs.filter (fun t => decide (now - 60 < t))).length) := by
  unfold should_throttle
  rw [recordAll_times, recordAll_cap]
  simp [newThrottler]

/-! ## Export is read-only; `mark_as_exported` is the only writer (claim C9) -/

theorem foldl_mark_as_map (now : Nat) (ids : List Nat) :
    ∀ rows : List Row,
      ids.foldl
        (fun rs i => rs.map (fun r => if r.id = i then setExported now r else r))
        rows =
      rows.map (fun r => if r.id ∈ ids then setExported now r else r) := by
  induction ids with
  | nil => intro rows; simp
  | cons i t ih =>
    intro rows
    show t.foldl _ (rows.map _) = _
    rw [ih, List.map_map]
    congr 1
    funext r
    simp only [Function.comp]
    by_cases h1 : r.id = i
    · have hid : (setExported now r).id = r.id := rfl
      by_cases h2 : r.id ∈ t <;>
        simp [h1, h2, hid, setExported, List.mem_cons]
    · by_cases h2 : r.id ∈ t <;> simp [h1, h2, List.mem_cons]

theorem export_to_csv_preserves_state (db : DB) (source : Option Str)
    (exported_only : Bool) : (export_to_csv db source exported_only).1 = db := by
  unfold export_to_csv
  by_cases h : (get_listings db none 0 source exported_only).isEmpty <;> simp [h]

/-- C9: exporting to CSV leaves every stored listing (and the whole database
state) unchanged; only the separate `mark_as_exported` operation sets the
exported flag and refreshes `last_updated`, and it does so exactly on the
listed ids, touching nothing else. -/
theorem export_readonly_mark_explicit (db : DB) (source : Option Str)
    (exported_only : Bool) (ids : List Nat) (now : Nat) :
    (export_to_csv db source exported_only).1 = db ∧
    (mark_as_exported db ids now).rows =
      db.rows.map (fun r => if r.id ∈ ids then setExported now r else r) ∧
    (mark_as_exported db ids now).history = db.history :=
  ⟨export_to_csv_preserves_state db source exported_only,
   foldl_mark_as_map now ids db.rows, rfl⟩

/-! ## Session history: writers and the bulk clear (claim C10) -/

theorem add_listing_history (md5 : Str → Str) (db : DB) (now : Nat)
    (street city state zip_code : Str) (listing_url : Option Str)
    (source_website : Str) (notes : Option Str) :
    (add_listing md5 db now street city state zip_code listing_url
        source_website notes).1.history = db.history := by
  unfold add_listing
  by_cases h : generate_hash md5 street city state zip_code ∈ dbHashes db <;> simp [h]

theorem bulk_add_history (md5 : Str → Str) (now : Nat) :
    ∀ (batch : List RawListing) (db : DB),
      (bulk_add_listings md5 now db batch).1.history = db.history := by
  intro batch
  induction batch with
  | nil => intro db; rfl
  | cons l rest ih =>
    intro db
    unfold bulk_add_listings
    rcases hadd : add_listing md5 db now l.street l.city l.state l.zip_code
        l.listing_url l.source_website l.notes with ⟨db', res⟩
    have hh : db'.history = db.history := by
      have := add_listing_history md5 db now l.street l.city l.state l.zip_code
        l.listing_url l.source_website l.notes
      rw [hadd] at this
      exact this
    cases res <;> simp only [] <;> rw [ih db', hh]

/-- C10: the bulk clear deletes the whole session history (and all listings),
while every other operation leaves existing session records untouched —
inserts, exports and `mark_as_exported` never write the history, and
`record_scrape_session` only appends one record. -/
theorem clear_all_data_clears_history (db : DB) (md5 : Str → Str) (now : Nat)
    (batch : List RawListing) (ids : List Nat) (source : Option Str)
    (exported_only : Bool) (source_website : Str)
    (found new dups errs : Nat) (msg : Option Str) (status : Str) :
    (clear_all_data db).history = [] ∧
    (clear_all_data db).rows = [] ∧
    (bulk_add_listings md5 now db batch).1.history = db.history ∧
    (mark_as_exported db ids now).history = db.history ∧
    (export_to_csv db source exported_only).1.history = db.history ∧
    (∃ s : Session,
      (record_scrape_session db now source_website found new dups errs msg
          status).1.history = db.history ++ [s]) :=
  ⟨rfl, rfl, bulk_add_history md5 now batch db, rfl,
   by rw [export_to_csv_preserves_state db source exported_only],
   ⟨_, rfl⟩⟩

/-! ## Bulk insert counts (claim C1) -/

theorem add_listing_mem (md5 : Str → Str) (db : DB) (now : Nat)
    (street city state zip_code : Str) (listing_url : Option Str)
    (source_website : Str) (notes : Option Str)
    (h : generate_hash md5 street city state zip_code ∈ dbHashes db) :
    add_listing md5 db now street city state zip_code listing_url
      source_website notes = (db, none) := by
  unfold add_listing
  rw [if_pos h]

theorem add_listing_not_mem (md5 : Str → Str) (db : DB) (now : Nat)
    (street city state zip_code : Str) (listing_url : Option Str)
    (source_website : Str) (notes : Option Str)
    (h : generate_hash md5 street city state zip_code ∉ dbHashes db) :
    (add_listing md5 db now street city state zip_code listing_url
        source_website notes).2 = some db.nextRowId ∧
    dbHashes (add_listing md5 db now street city state zip_code listing_url
        source_website notes).1 =
      dbHashes db ++ [generate_hash md5 street city state zip_code] := by
  unfold add_listing
  rw [if_neg h]
  exact ⟨rfl, by simp [dbHashes]⟩

/-- Position `i` of the fingerprint list `hs` is fresh: not already among
`stored` and not a repeat of an earlier batch position. -/
def freshAt (stored hs : List Str) (i : Nat) : Bool :=
  !decide (hs.getD i [] ∈ stored) && !decide (hs.getD i [] ∈ hs.take i)

theorem freshAt_cons_succ_mem (S : List Str) (h : Str) (hs : List Str)
    (hmem : h ∈ S) (i : Nat) :
    freshAt S (h :: hs) (i + 1) = freshAt S hs i := by
  unfold freshAt
  rw [List.getD_cons_succ, List.take_succ_cons, Bool.eq_iff_iff]
  simp only [Bool.and_eq_true, Bool.not_eq_true', decide_eq_false_iff_not,
    List.mem_cons]
  constructor
  · rintro ⟨h1, h2⟩
    exact ⟨h1, fun hc => h2 (Or.inr hc)⟩
  · rintro ⟨h1, h2⟩
    refine ⟨h1, fun hc => ?_⟩
    rcases hc with hc | hc
    · exact h1 (hc ▸ hmem)
    · exact h2 hc

theorem freshAt_cons_succ_not_mem (S : List Str) (h : Str) (hs : List Str)
    (i : Nat) :
    freshAt S (h :: hs) (i + 1) = freshAt (S ++ [h]) hs i := by
  unfold freshAt
  rw [List.getD_cons_succ, List.take_succ_cons, Bool.eq_iff_iff]
  simp only [Bool.and_eq_true, Bool.not_eq_true', decide_eq_false_iff_not,
    List.mem_cons, List.mem_append, List.mem_singleton, List.mem_nil_iff,
    or_false]
  constructor
  · rintro ⟨h1, h2⟩
    exact ⟨fun hc => hc.elim h1 (fun he => h2 (Or.inl he)), fun hc => h2 (Or.inr hc)⟩
  · rintro ⟨h1, h2⟩
    exact ⟨fun hc => h1 (Or.inl hc),
      fun hc => hc.elim (fun he => h1 (Or.inr he)) h2⟩

theorem bulk_new_count (md5 : Str → Str) (now : Nat) :
    ∀ (batch : List RawListing) (db : DB),
      (bulk_add_listings md5 now db batch).2.1 =
        (List.range batch.length).countP
          (freshAt (dbHashes db) (batch.map (fp md5))) := by
  intro batch
  induction batch with
  | nil => intro db; simp [bulk_add_listings]
  | cons l rest ih =>
    intro db
    have hmap : (l :: rest).map (fp md5) = fp md5 l :: rest.map (fp md5) := rfl
    by_cases hmem : fp md5 l ∈ dbHashes db
    · have heq := add_listing_mem md5 db now l.street l.city l.state l.zip_code
        l.listing_url l.source_website l.notes hmem
      simp only [bulk_add_listings, heq]
      rw [ih db, hmap, List.length_cons, List.range_succ_eq_map,
        List.countP_cons, List.countP_map]
      have h0 : freshAt (dbHashes db) (fp md5 l :: rest.map (fp md5)) 0 = false := by
        simp [freshAt, hmem]
      rw [h0, if_neg (by simp), Nat.add_zero]
      refine (List.countP_congr ?_).symm
      intro i _
      have := freshAt_cons_succ_mem (dbHashes db) (fp md5 l)
        (rest.map (fp md5)) hmem i
      simp only [Function.comp, Nat.succ_eq_add_one, this]
    · obtain ⟨hres, hhash⟩ := add_listing_not_mem md5 db now l.street l.city
        l.state l.zip_code l.listing_url l.source_website l.notes hmem
      rcases hadd : add_listing md5 db now l.street l.city l.state l.zip_code
          l.listing_url l.source_website l.notes with ⟨db', res⟩
      rw [hadd] at hres hhash
      simp only at hres hhash
      subst hres
      rw [show generate_hash md5 l.street l.city l.state l.zip_code = fp md5 l
        from rfl] at hhash
      simp only [bulk_add_listings, hadd]
      rw [ih db', hhash, hmap, List.length_cons, List.range_succ_eq_map,
        List.countP_cons, List.countP_map]
      have h0 : freshAt (dbHashes db) (fp md5 l :: rest.map (fp md5)) 0 = true := by
        simp [freshAt, hmem]
      rw [h0, if_pos rfl]
      congr 1
      refine List.countP_congr ?_
      intro i _
      have := freshAt_cons_succ_not_mem (dbHashes db) (fp md5 l)
        (rest.map (fp md5)) i
      simp only [Function.comp, Nat.succ_eq_add_one, this]

theorem bulk_counts_sum (md5 : Str → Str) (now : Nat) :
    ∀ (batch : List RawListing) (db : DB),
      (bulk_add_listings md5 now db batch).2.1 +
        (bulk_add_listings md5 now db batch).2.2 = batch.length := by
  intro batch
  induction batch with
  | nil => intro db; rfl
  | cons l rest ih =>
    intro db
    unfold bulk_add_listings
    rcases hadd : add_listing md5 db now l.street l.city l.state l.zip_code
        l.listing_url l.source_website l.notes with ⟨db', res⟩
    cases res <;> simp only [List.length_cons] <;>
      have := ih db' <;> omega

/-- C1: over any batch, `bulk_add_listings` counts a listing as new exactly
when its fingerprint is neither already stored nor a repeat of an earlier
batch entry, the two counters sum to the batch length, inserting a duplicate
is a no-op on the store (never an error), and on an empty store the batch
[A, A, B] with distinct fingerprints yields (2, 1). -/
theorem bulk_add_listings_counts (md5 : Str → Str) (db : DB) (now : Nat)
    (batch : List RawListing) (A B : RawListing) (hAB : fp md5 A ≠ fp md5 B) :
    (bulk_add_listings md5 now db batch).2.1 =
      (List.range batch.length).countP
        (freshAt (dbHashes db) (batch.map (fp md5))) ∧
    (bulk_add_listings md5 now db batch).2.1 +
      (bulk_add_listings md5 now db batch).2.2 = batch.length ∧
    (∀ l : RawListing, fp md5 l ∈ dbHashes db →
      add_listing md5 db now l.street l.city l.state l.zip_code l.listing_url
        l.source_website l.notes = (db, none)) ∧
    (bulk_add_listings md5 now emptyDB [A, A, B]).2 = (2, 1) := by
  refine ⟨bulk_new_count md5 now batch db, bulk_counts_sum md5 now batch db,
    fun l hl => add_listing_mem md5 db now l.street l.city l.state l.zip_code
      l.listing_url l.source_website l.notes hl, ?_⟩
  have hBA : fp md5 B ∉ dbHashes emptyDB ++ [fp md5 A] := by
    simp [emptyDB, dbHashes]
    exact fun hx => hAB hx.symm
  simp only [bulk_add_listings, add_listing, fp, emptyDB] at *
  simp [dbHashes] at *
  split_ifs with h1 h2 <;> simp_all [dbHashes]

/-! ## Retry wrapper (claim C5) -/

theorem retryFrom_all_fail {α : Type} (cfg : RetryConfig)
    (op : Nat → Except FailureKind α) (es : Nat → FailureKind) :
    ∀ (n a : Nat), a + n = cfg.max_retries →
      (∀ k, a ≤ k → k ≤ cfg.max_retries → op k = .error (es k)) →
      retryFrom cfg op a =
        (.error (es cfg.max_retries),
         (List.range' a n).map (fun k => cfg.backoff_factor ^ k), n + 1) := by
  intro n
  induction n with
  | zero =>
    intro a ha hop
    rw [retryFrom, hop a (Nat.le_refl a) (by omega)]
    dsimp only
    rw [if_neg (by omega)]
    have haeq : a = cfg.max_retries := by omega
    rw [haeq]
    rfl
  | succ n ih =>
    intro a ha hop
    rw [retryFrom, hop a (Nat.le_refl a) (by omega)]
    dsimp only
    rw [if_pos (by omega)]
    rw [ih (a + 1) (by omega) (fun k hk1 hk2 => hop k (by omega) hk2)]
    rw [List.range'_succ]
    rfl

/-- C5 amended: the wrapper classifies nothing — every failure, retryable or
not, is retried: as long as attempts remain it sleeps
`backoff_factor ^ attempt` and tries again, and after `max_retries + 1`
failing attempts the last failure propagates. The configured retryable
status set is never consulted. -/
theorem retry_retries_every_failure {α : Type} (cfg : RetryConfig)
    (op : Nat → Except FailureKind α) (es : Nat → FailureKind)
    (hop : ∀ k, k ≤ cfg.max_retries → op k = .error (es k)) :
    retry_with_backoff cfg op =
      (.error (es cfg.max_retries),
       (List.range cfg.max_retries).map (fun k => cfg.backoff_factor ^ k),
       cfg.max_retries + 1) := by
  rw [retry_with_backoff,
    retryFrom_all_fail cfg op es cfg.max_retries 0 (by omega)
      (fun k _ hk2 => hop k hk2),
    List.range_eq_range']

/-- C5 witness: a network failure on every attempt under the default config
gives four attempts and the sleeps 1, 2, 4 seconds. -/
theorem retry_retries_every_failure_witness :
    retry_with_backoff defaultRetryConfig
        (fun _ => (.error .network : Except FailureKind Unit)) =
      (.error .network, [1, 2, 4], 4) := by
  rw [retry_retries_every_failure defaultRetryConfig _ (fun _ => .network)
    (fun _ _ => rfl)]
  simp [defaultRetryConfig, List.range_succ]
  norm_num

/-- C5 counterexample: an HTTP 404 failure is not retryable under the spec's
classification, yet the wrapper still performs four attempts and the backoff
sleeps 1, 2, 4 under the default config — it does not propagate immediately
after the failing attempt. -/
theorem nonretryable_is_still_retried :
    retryableClass defaultRetryConfig (.status 404) = false ∧
    retry_with_backoff defaultRetryConfig
        (fun _ => (.error (.status 404) : Except FailureKind Unit)) =
      (.error (.status 404), [1, 2, 4], 4) ∧
    ¬([1, 2, 4] = ([] : List ℚ) ∧ (4 : Nat) = 1) := by
  refine ⟨by decide, ?_, by simp⟩
  rw [retry_with_backoff]
  rw [retryFrom, retryFrom, retryFrom, retryFrom]
  norm_num [defaultRetryConfig]

/-! ## Orchestration: session records (claims C3, C4) -/

/-- C3: one iteration of the per-source loop appends exactly one session
record to the history, with status `completed` when the body ran to
completion and `failed` when it raised. -/
theorem runSource_one_session (md5 : Str → Str) (db : DB) (now : Nat)
    (source_name : Str)
    (outcome : Except Str (List (Except Unit (List RawCandidate)))) :
    ∃ s : Session,
      (runSource md5 db now source_name outcome).history = db.history ++ [s] ∧
      s.status = (match outcome with
        | .ok _ => ascii "completed"
        | .error _ => ascii "failed") := by
  cases outcome with
  | ok targets =>
    apply Exists.intro
    constructor
    · show (record_scrape_session _ _ _ _ _ _ _ _ _).1.history = _
      unfold record_scrape_session
      simp only []
      rw [bulk_add_history]
    · rfl
  | error msg => exact ⟨_, rfl, rfl⟩

/-- The candidates contributed by the successful targets, in order. -/
def okCandidates (targets : List (Except Unit (List RawCandidate))) :
    List RawCandidate :=
  (targets.filterMap (fun t => match t with
    | .ok ls => some ls
    | .error _ => none)).flatten

theorem collectListings_eq_okCandidates
    (targets : List (Except Unit (List RawCandidate))) :
    collectListings targets = okCandidates targets := by
  have key : ∀ (ts : List (Except Unit (List RawCandidate))) (acc : List RawCandidate),
      ts.foldl (fun acc t => match t with | .ok ls => acc ++ ls | .error _ => acc) acc =
        acc ++ okCandidates ts := by
    intro ts
    induction ts with
    | nil => intro acc; simp [okCandidates]
    | cons t rest ih =>
      intro acc
      cases t with
      | ok ls =>
        show rest.foldl _ (acc ++ ls) = _
        rw [ih (acc ++ ls)]
        simp [okCandidates, List.append_assoc]
      | error e =>
        show rest.foldl _ acc = _
        rw [ih acc]
        simp [okCandidates]
  have := key targets []
  simpa [collectListings] using this

/-- C4 amended: when at least one discovered target fails to fetch, the run
still records one session with status `completed` and `listings_found` equal
to the number of valid normalized candidates from the successful targets —
but the recorded error count is 0, not ≥ 1: per-target failures are logged
and swallowed, never counted. -/
theorem partial_failure_records_completed (md5 : Str → Str) (db : DB)
    (now : Nat) (source_name : Str)
    (targets : List (Except Unit (List RawCandidate)))
    (hfail : Except.error () ∈ targets) :
    ∃ s : Session,
      (runSourceSuccess md5 db now source_name targets).history =
        db.history ++ [s] ∧
      s.status = ascii "completed" ∧
      s.errors = 0 ∧
      s.listings_found =
        ((okCandidates targets).filterMap (normalizeListing source_name)).length := by
  apply Exists.intro
  constructor
  · show (record_scrape_session _ _ _ _ _ _ _ _ _).1.history = _
    unfold record_scrape_session
    simp only []
    rw [bulk_add_history]
  · refine ⟨rfl, rfl, ?_⟩
    show (scraperScrape source_name targets).length = _
    rw [scraperScrape, collectListings_eq_okCandidates]

/-- C4 counterexample: discovery found two targets, the first fails to fetch,
the second yields one valid candidate — the recorded session has
`listings_found = 1` and status `completed` as the claim says, but its error
count is 0, refuting the claim's `errors ≥ 1`. -/
theorem partial_failure_errors_zero :
    ((runSourceSuccess id emptyDB 0 (ascii "fsbo.com") exampleTargets).history.map
      (fun s => (s.errors, s.status, s.listings_found))) =
      [(0, ascii "completed", 1)] ∧
    ¬(1 ≤ (0 : Nat)) := by
  refine ⟨?_, by omega⟩
  simp [exampleTargets, runSourceSuccess, scraperScrape, collectListings, normalizeListing,
    normalize_address, normalize_street, normalize_city, normalize_state,
    normalize_zip, is_valid_address, pySplit, joinSpace, pyTitle, pyTitleAux,
    pyStrip, pyLower, pyUpper, pyIsUpper, subDirectionals, subStreetTypes,
    reSub, subScan, tryAlts, matchPre, boundaryOk, ciEqC, DIRECTIONAL_WORDS,
    STREET_TYPES, STATE_ABBREV, ascii, isSpaceC, isWordC, isAlnumC, isAlphaC,
    isUpperC, isLowerC, isDigitC, lowerC, upperC, bulk_add_listings,
    add_listing, generate_hash, hashInput, dbHashes, emptyDB,
    record_scrape_session]

/-- C1 witness: with the identity in place of md5, A and B have distinct
fingerprints and the batch [A, A, B] on an empty store yields (2, 1). -/
theorem bulk_add_listings_counts_witness :
    fp id listingA ≠ fp id listingB ∧
    (bulk_add_listings id 0 emptyDB [listingA, listingA, listingB]).2 = (2, 1) :=
  ⟨by decide,
   (bulk_add_listings_counts id emptyDB 0 [] listingA listingB (by decide)).2.2.2⟩

/-- C4 witness: the example run has a failing target, and the recorded
session is completed with zero errors and one listing found. -/
theorem partial_failure_records_completed_witness :
    Except.error () ∈ exampleTargets ∧
    ∃ s : Session,
      (runSourceSuccess id emptyDB 0 (ascii "fsbo.com") exampleTargets).history =
        emptyDB.history ++ [s] ∧
      s.status = ascii "completed" ∧
      s.errors = 0 ∧
      s.listings_found =
        ((okCandidates exampleTargets).filterMap
          (normalizeListing (ascii "fsbo.com"))).length :=
  ⟨List.mem_cons_self _ _,
   partial_failure_records_completed id emptyDB 0 (ascii "fsbo.com")
     exampleTargets (List.mem_cons_self _ _)⟩

/-! ## Case/whitespace invariance of the fingerprint (claim C2) -/

theorem pySplit_nil : pySplit [] = [] := by
  simp [pySplit]

theorem pySplit_nil_of_allspace (t : Str) (ht : ∀ c ∈ t, isSpaceC c = true) :
    pySplit t = [] := by
  induction t with
  | nil => exact pySplit_nil
  | cons c cs ih =>
    simp only [pySplit]
    rw [if_pos (ht c (List.mem_cons_self c cs))]
    exact ih (fun d hd => ht d (List.mem_cons_of_mem c hd))

theorem pySplit_append_spaces (t : Str) (ht : ∀ c ∈ t, isSpaceC c = true) :
    ∀ u : Str, pySplit (u ++ t) = pySplit u := by
  have main : ∀ (n : Nat) (u : Str), u.length ≤ n →
      pySplit (u ++ t) = pySplit u := by
    intro n
    induction n with
    | zero =>
      intro u hu
      have hnil : u = [] := List.length_eq_zero.mp (Nat.le_zero.mp hu)
      subst hnil
      rw [List.nil_append, pySplit_nil]
      exact pySplit_nil_of_allspace t ht
    | succ n ih =>
      intro u hu
      cases u with
      | nil =>
        rw [List.nil_append, pySplit_nil]
        exact pySplit_nil_of_allspace t ht
      | cons c cs =>
        have hcs : cs.length ≤ n := by
          simp only [List.length_cons] at hu
          omega
        simp only [List.cons_append, pySplit]
        by_cases hc : isSpaceC c = true
        · rw [if_pos hc, if_pos hc]
          exact ih cs hcs
        · rw [if_neg hc, if_neg hc]
          have htake : (cs ++ t).takeWhile (fun d => !isSpaceC d) =
              cs.takeWhile (fun d => !isSpaceC d) := by
            rw [List.takeWhile_append]
            split_ifs with hlen
            · have htw : t.takeWhile (fun d => !isSpaceC d) = [] := by
                cases t with
                | nil => rfl
                | cons d ds =>
                  rw [List.takeWhile_cons_of_neg]
                  simp [ht d (List.mem_cons_self d ds)]
              rw [htw, List.append_nil]
              exact ((List.takeWhile_prefix _).eq_of_length hlen).symm
            · rfl
          have hdrop : pySplit ((cs ++ t).dropWhile (fun d => !isSpaceC d)) =
              pySplit (cs.dropWhile (fun d => !isSpaceC d)) := by
            rw [List.dropWhile_append]
            split_ifs with hemp
            · have h1 : t.dropWhile (fun d => !isSpaceC d) = t := by
                cases t with
                | nil => rfl
                | cons d ds =>
                  rw [List.dropWhile_cons_of_neg]
                  simp [ht d (List.mem_cons_self d ds)]
              rw [h1, List.isEmpty_iff.mp hemp]
              rw [pySplit_nil_of_allspace t ht, pySplit_nil]
            · exact ih _ (le_trans
                (List.Sublist.length_le (List.dropWhile_sublist _)) hcs)
          rw [htake, hdrop]
  intro u
  exact main u.length u (Nat.le_refl _)

theorem pySplit_dropWhile_spaces (s : Str) :
    pySplit (s.dropWhile isSpaceC) = pySplit s := by
  induction s with
  | nil => rfl
  | cons c cs ih =>
    by_cases hc : isSpaceC c = true
    · rw [List.dropWhile_cons_of_pos hc, ih]
      simp only [pySplit]
      rw [if_pos hc]
    · rw [List.dropWhile_cons_of_neg (by simp [hc])]

theorem pyStrip_decomposition (s : Str) :
    ∃ t, s.dropWhile isSpaceC = pyStrip s ++ t ∧ ∀ c ∈ t, isSpaceC c = true := by
  unfold pyStrip
  refine ⟨(((s.dropWhile isSpaceC).reverse.takeWhile isSpaceC)).reverse, ?_, ?_⟩
  · conv_lhs => rw [← (s.dropWhile isSpaceC).reverse_reverse,
      ← List.takeWhile_append_dropWhile isSpaceC (s.dropWhile isSpaceC).reverse]
    rw [List.reverse_append]
  · intro c hc
    rw [List.mem_reverse] at hc
    exact List.mem_takeWhile_imp hc

theorem pySplit_pyStrip (s : Str) : pySplit (pyStrip s) = pySplit s := by
  obtain ⟨t, hdec, ht⟩ := pyStrip_decomposition s
  have h1 := pySplit_append_spaces t ht (pyStrip s)
  rw [← hdec, pySplit_dropWhile_spaces] at h1
  exact h1.symm

theorem pySplit_map (f : Nat → Nat) (hf : ∀ c, isSpaceC (f c) = isSpaceC c) :
    ∀ s : Str, pySplit (s.map f) = (pySplit s).map (List.map f) := by
  have hfun : (fun d => !isSpaceC d) ∘ f = (fun d => !isSpaceC d) := by
    funext d
    simp [Function.comp, hf d]
  have main : ∀ (n : Nat) (s : Str), s.length ≤ n →
      pySplit (s.map f) = (pySplit s).map (List.map f) := by
    intro n
    induction n with
    | zero =>
      intro s hs
      have hnil : s = [] := List.length_eq_zero.mp (Nat.le_zero.mp hs)
      subst hnil
      simp [pySplit_nil]
    | succ n ih =>
      intro s hs
      cases s with
      | nil => simp [pySplit_nil]
      | cons c cs =>
        have hcs : cs.length ≤ n := by
          simp only [List.length_cons] at hs
          omega
        simp only [List.map_cons, pySplit]
        by_cases hc : isSpaceC c = true
        · rw [if_pos (by rw [hf]; exact hc), if_pos hc]
          exact ih cs hcs
        · rw [if_neg (by rw [hf]; exact hc), if_neg hc]
          rw [List.takeWhile_map, List.dropWhile_map, hfun]
          rw [ih (cs.dropWhile (fun d => !isSpaceC d))
            (le_trans (List.Sublist.length_le (List.dropWhile_sublist _)) hcs)]
          simp
  intro s
  exact main s.length s (Nat.le_refl _)

theorem joinSpace_map (f : Nat → Nat) (hf32 : f 32 = 32) :
    ∀ ws : List Str, (joinSpace ws).map f = joinSpace (ws.map (List.map f)) := by
  intro ws
  induction ws with
  | nil => rfl
  | cons w ws ih =>
    cases ws with
    | nil => rfl
    | cons w2 rest =>
      simp only [joinSpace, List.map_cons, List.map_append, hf32, ih]

theorem pyStrip_map (f : Nat → Nat) (hf : ∀ c, isSpaceC (f c) = isSpaceC c)
    (s : Str) : pyStrip (s.map f) = (pyStrip s).map f := by
  have hfun : isSpaceC ∘ f = isSpaceC := funext hf
  unfold pyStrip
  rw [List.dropWhile_map, hfun, List.reverse_map, List.dropWhile_map, hfun,
    List.reverse_map]

theorem pyTitleAux_congr :
    ∀ (a b : Str), pyLower a = pyLower b →
      ∀ prev : Bool, pyTitleAux prev a = pyTitleAux prev b := by
  intro a
  induction a with
  | nil =>
    intro b h prev
    cases b with
    | nil => rfl
    | cons d ds => simp [pyLower] at h
  | cons c cs ih =>
    intro b h prev
    cases b with
    | nil => simp [pyLower] at h
    | cons d ds =>
      simp only [pyLower, List.map_cons, List.cons.injEq] at h
      obtain ⟨h1, h2⟩ := h
      simp only [pyTitleAux]
      rw [isAlphaC_congr_of_lowerC h1]
      have hrec : pyTitleAux (isAlphaC d) cs = pyTitleAux (isAlphaC d) ds :=
        ih ds h2 (isAlphaC d)
      rw [hrec]
      congr 1
      by_cases hd : isAlphaC d = true
      · rw [if_pos hd, if_pos hd]
        cases prev with
        | true => simpa using h1
        | false => simpa using upperC_lowerC_congr h1
      · rw [if_neg hd, if_neg hd]
        exact eq_of_lowerC_eq_of_not_alpha h1
          (by rw [isAlphaC_congr_of_lowerC h1, Bool.eq_false_iff]; exact hd)

theorem pyTitle_congr (a b : Str) (h : pyLower a = pyLower b) :
    pyTitle a = pyTitle b :=
  pyTitleAux_congr a b h false

/-- The canonical string `' '.join(s.split())`, lower-cased, depends only on
the stripped lower-cased input. -/
theorem canonical_lower (s : Str) :
    pyLower (joinSpace (pySplit s)) =
      joinSpace (pySplit (pyLower (pyStrip s))) := by
  show (joinSpace (pySplit s)).map lowerC = _
  rw [joinSpace_map lowerC (by decide), ← pySplit_map lowerC isSpaceC_lowerC]
  show joinSpace (pySplit (pyLower s)) = _
  rw [← pySplit_pyStrip (pyLower s)]
  show joinSpace (pySplit (pyStrip (s.map lowerC))) = _
  rw [pyStrip_map lowerC isSpaceC_lowerC]
  rfl

theorem normalize_street_eq_pipeline (s : Str) :
    normalize_street s =
      pyStrip (subStreetTypes (subDirectionals (pyTitle (joinSpace (pySplit s))))) := by
  unfold normalize_street
  split_ifs with h
  · subst h
    simp [pySplit, joinSpace, pyTitle, pyTitleAux, subDirectionals,
      subStreetTypes, reSub, subScan, pyStrip, STREET_TYPES]
  · rfl

theorem normalize_city_eq_pipeline (s : Str) :
    normalize_city s = pyStrip (pyTitle (joinSpace (pySplit s))) := by
  unfold normalize_city
  split_ifs with h
  · subst h
    simp [pySplit, joinSpace, pyTitle, pyTitleAux, pyStrip]
  · rfl

theorem normalize_street_congr (s₁ s₂ : Str)
    (h : pyLower (pyStrip s₁) = pyLower (pyStrip s₂)) :
    normalize_street s₁ = normalize_street s₂ := by
  rw [normalize_street_eq_pipeline, normalize_street_eq_pipeline]
  have key : pyTitle (joinSpace (pySplit s₁)) = pyTitle (joinSpace (pySplit s₂)) := by
    apply pyTitle_congr
    rw [canonical_lower, canonical_lower, h]
  rw [key]

theorem normalize_city_congr (s₁ s₂ : Str)
    (h : pyLower (pyStrip s₁) = pyLower (pyStrip s₂)) :
    normalize_city s₁ = normalize_city s₂ := by
  rw [normalize_city_eq_pipeline, normalize_city_eq_pipeline]
  have key : pyTitle (joinSpace (pySplit s₁)) = pyTitle (joinSpace (pySplit s₂)) := by
    apply pyTitle_congr
    rw [canonical_lower, canonical_lower, h]
  rw [key]

theorem normalize_state_eq_of_lower_strip (s : Str) :
    normalize_state s =
      (let t := pyLower (pyStrip s)
       if t.length = 2 ∧ pyIsUpper t then pyUpper t
       else
         match STATE_ABBREV.find? (fun pr => decide (pr.1 = t)) with
         | some pr => pr.2
         | none => pyUpper t) := by
  unfold normalize_state
  split_ifs with h
  · subst h
    simp only [pyStrip, pyLower, pyIsUpper, List.dropWhile_nil,
      List.reverse_nil, List.map_nil, List.length_nil]
    rw [if_neg (by simp [pyIsUpper])]
    rw [show STATE_ABBREV.find? (fun pr => decide (pr.1 = ([] : Str))) = none
      from by decide]
    rfl
  · rfl

theorem normalize_state_congr (s₁ s₂ : Str)
    (h : pyLower (pyStrip s₁) = pyLower (pyStrip s₂)) :
    normalize_state s₁ = normalize_state s₂ := by
  rw [normalize_state_eq_of_lower_strip, normalize_state_eq_of_lower_strip, h]

/-- The listing dict built from a normalized address, as the pipeline passes
it to the store. -/
def toRawListing (a : Address) (url : Option Str) (src : Str) : RawListing :=
  { street := a.street, city := a.city, state := a.state,
    zip_code := a.zip_code, listing_url := url, source_website := src,
    notes := none }

/-- C2: two raw address candidates whose street, city and state differ only
by letter case or surrounding whitespace (equal zip) normalize to the same
fingerprint under any hash function, and inserting both into an empty store
leaves exactly one row. -/
theorem fingerprint_case_ws_collapse (md5 : Str → Str)
    (s₁ c₁ t₁ s₂ c₂ t₂ z : Str) (u₁ u₂ : Option Str) (src : Str) (now : Nat)
    (hs : pyLower (pyStrip s₁) = pyLower (pyStrip s₂))
    (hc : pyLower (pyStrip c₁) = pyLower (pyStrip c₂))
    (ht : pyLower (pyStrip t₁) = pyLower (pyStrip t₂)) :
    generate_hash md5 (normalize_address s₁ c₁ t₁ z).street
        (normalize_address s₁ c₁ t₁ z).city (normalize_address s₁ c₁ t₁ z).state
        (normalize_address s₁ c₁ t₁ z).zip_code =
      generate_hash md5 (normalize_address s₂ c₂ t₂ z).street
        (normalize_address s₂ c₂ t₂ z).city (normalize_address s₂ c₂ t₂ z).state
        (normalize_address s₂ c₂ t₂ z).zip_code ∧
    (bulk_add_listings md5 now emptyDB
        [toRawListing (normalize_address s₁ c₁ t₁ z) u₁ src,
         toRawListing (normalize_address s₂ c₂ t₂ z) u₂ src]).1.rows.length = 1 := by
  have heq : normalize_address s₁ c₁ t₁ z = normalize_address s₂ c₂ t₂ z := by
    unfold normalize_address
    rw [normalize_street_congr s₁ s₂ hs, normalize_city_congr c₁ c₂ hc,
      normalize_state_congr t₁ t₂ ht]
  rw [heq]
  refine ⟨rfl, ?_⟩
  simp only [bulk_add_listings, add_listing, toRawListing]
  simp [dbHashes, emptyDB]

/-- C2 witness: "123 Main St"/"Springfield"/"IL" and its case/whitespace
variant collapse to one stored row. -/
theorem fingerprint_case_ws_collapse_witness :
    (pyLower (pyStrip (ascii "123 Main St")) =
      pyLower (pyStrip (ascii "  123 MAIN st "))) ∧
    (pyLower (pyStrip (ascii "Springfield")) =
      pyLower (pyStrip (ascii "SPRINGFIELD"))) ∧
    (pyLower (pyStrip (ascii "IL")) = pyLower (pyStrip (ascii " il "))) ∧
    (bulk_add_listings id 0 emptyDB
        [toRawListing (normalize_address (ascii "123 Main St")
            (ascii "Springfield") (ascii "IL") (ascii "62701")) none (ascii "s"),
         toRawListing (normalize_address (ascii "  123 MAIN st ")
            (ascii "SPRINGFIELD") (ascii " il ") (ascii "62701")) none
           (ascii "s")]).1.rows.length = 1 :=
  ⟨by decide, by decide, by decide,
   (fingerprint_case_ws_collapse id (ascii "123 Main St") (ascii "Springfield")
      (ascii "IL") (ascii "  123 MAIN st ") (ascii "SPRINGFIELD") (ascii " il ")
      (ascii "62701") none none (ascii "s") 0
      (by decide) (by decide) (by decide)).2⟩

/-! ## `normalize_street` token behaviour (claim C6) -/

theorem isSpaceC_of_alnum {c : Nat} (h : isAlnumC c = true) :
    isSpaceC c = false := by
  simp only [isAlnumC, isAlphaC, isUpperC, isLowerC, isDigitC, Bool.or_eq_true,
    decide_eq_true_eq] at h
  simp only [isSpaceC, decide_eq_false_iff_not]
  omega

theorem isWordC_of_alnum {c : Nat} (h : isAlnumC c = true) :
    isWordC c = true := by
  simp [isWordC, h]

theorem isAlnumC_lowerC (c : Nat) : isAlnumC (lowerC c) = isAlnumC c := by
  rw [Bool.eq_iff_iff]
  simp only [isAlnumC, isAlphaC, isUpperC, isLowerC, isDigitC, Bool.or_eq_true,
    decide_eq_true_eq]
  rcases lowerC_spec c with ⟨h1, h2, h3⟩ | ⟨h1, h3⟩ <;> rw [h3] <;> omega

theorem isAlnumC_upperC (c : Nat) : isAlnumC (upperC c) = isAlnumC c := by
  rw [Bool.eq_iff_iff]
  simp only [isAlnumC, isAlphaC, isUpperC, isLowerC, isDigitC, Bool.or_eq_true,
    decide_eq_true_eq]
  rcases upperC_spec c with ⟨h1, h2, h3⟩ | ⟨h1, h3⟩ <;> rw [h3] <;> omega

theorem ciEqC_alpha_nonword {a b : Nat} (ha : isAlphaC a = true)
    (hb : isWordC b = false) : ciEqC ci a b = false := by
  simp only [isAlphaC, isUpperC, isLowerC, Bool.or_eq_true, decide_eq_true_eq] at ha
  simp only [isWordC, isAlnumC, isAlphaC, isUpperC, isLowerC, isDigitC,
    Bool.or_eq_false_iff, decide_eq_false_iff_not] at hb
  unfold ciEqC
  rcases lowerC_spec a with ⟨h1, h2, h3⟩ | ⟨h1, h3⟩ <;>
    rcases lowerC_spec b with ⟨g1, g2, g3⟩ | ⟨g1, g3⟩ <;>
    split_ifs <;> simp only [decide_eq_false_iff_not] <;>
    first
      | (rw [h3, g3]; omega)
      | omega

/-- The title-case transform of one character keeps it alphanumeric. -/
theorem isAlnumC_titleChar (prev : Bool) (c : Nat) :
    isAlnumC (if isAlphaC c = true then (if prev then lowerC c else upperC c) else c) =
      isAlnumC c := by
  split_ifs with h1 h2 <;> simp [isAlnumC_lowerC, isAlnumC_upperC]

theorem pyTitleAux_token (prev : Bool) (w : Str) (hw : ∀ c ∈ w, isAlnumC c = true) :
    pyTitleAux prev w ≠ [] ∨ w = [] := by
  cases w with
  | nil => exact Or.inr rfl
  | cons c cs => exact Or.inl (by simp [pyTitleAux])

theorem pyTitleAux_alnum (w : Str) :
    ∀ prev, (∀ c ∈ w, isAlnumC c = true) →
      ∀ c ∈ pyTitleAux prev w, isAlnumC c = true := by
  induction w with
  | nil => intro prev _ c hc; simp [pyTitleAux] at hc
  | cons a cs ih =>
    intro prev hw c hc
    simp only [pyTitleAux, List.mem_cons] at hc
    rcases hc with hc | hc
    · subst hc
      rw [isAlnumC_titleChar]
      exact hw a (List.mem_cons_self a cs)
    · exact ih (isAlphaC a) (fun d hd => hw d (List.mem_cons_of_mem a hd)) c hc

/-- C6 counterexample: `normalize_street` turns "123 Northeast Ave" into
"123 N Ave" — the directional replacement keeps only the first letter of the
matched word, not the two-letter abbreviation "NE" the claim states. -/
theorem normalize_street_northeast_single_letter :
    normalize_street (ascii "123 Northeast Ave") = ascii "123 N Ave" ∧
    ascii "123 N Ave" ≠ ascii "123 NE Ave" := by
  constructor
  · simp [normalize_street, pySplit, joinSpace, pyTitle, pyTitleAux,
      subDirectionals, subStreetTypes, reSub, subScan, tryAlts, matchPre,
      boundaryOk, ciEqC, pyStrip, DIRECTIONAL_WORDS, STREET_TYPES, ascii,
      isSpaceC, isWordC, isAlnumC, isAlphaC, isUpperC, isLowerC, isDigitC,
      lowerC, upperC]
  · decide

theorem pySplit_single_token (w : Str) (hne : w ≠ [])
    (hw : ∀ c ∈ w, isSpaceC c = false) : pySplit w = [w] := by
  cases w with
  | nil => exact absurd rfl hne
  | cons c cs =>
    simp only [pySplit]
    rw [if_neg (by simp [hw c (List.mem_cons_self c cs)])]
    have htake : cs.takeWhile (fun d => !isSpaceC d) = cs := by
      conv_lhs => rw [← List.append_nil cs]
      rw [List.takeWhile_append_of_pos
        (fun a ha => by simp [hw a (List.mem_cons_of_mem c ha)])]
      simp
    have hdrop : cs.dropWhile (fun d => !isSpaceC d) = [] := by
      conv_lhs => rw [← List.append_nil cs]
      rw [List.dropWhile_append_of_pos
        (fun a ha => by simp [hw a (List.mem_cons_of_mem c ha)])]
      simp
    rw [htake, hdrop, pySplit_nil]

theorem pySplit_joinSpace (ts : List Str)
    (h : ∀ w ∈ ts, w ≠ [] ∧ ∀ c ∈ w, isSpaceC c = false) :
    pySplit (joinSpace ts) = ts := by
  induction ts with
  | nil => exact pySplit_nil
  | cons w ws ih =>
    cases ws with
    | nil =>
      exact pySplit_single_token w (h w (List.mem_cons_self w [])).1
        (h w (List.mem_cons_self w [])).2
    | cons w2 rest =>
      obtain ⟨hne, hw⟩ := h w (List.mem_cons_self w (w2 :: rest))
      cases w with
      | nil => exact absurd rfl hne
      | cons c cs =>
        show pySplit ((c :: cs) ++ 32 :: joinSpace (w2 :: rest)) = _
        rw [List.cons_append]
        simp only [pySplit]
        rw [if_neg (by simp [hw c (List.mem_cons_self c cs)])]
        have htake : (cs ++ 32 :: joinSpace (w2 :: rest)).takeWhile
            (fun d => !isSpaceC d) = cs := by
          rw [List.takeWhile_append_of_pos
            (fun a ha => by simp [hw a (List.mem_cons_of_mem c ha)])]
          rw [List.takeWhile_cons_of_neg (by simp [isSpaceC])]
          rw [List.append_nil]
        have hdrop : (cs ++ 32 :: joinSpace (w2 :: rest)).dropWhile
            (fun d => !isSpaceC d) = 32 :: joinSpace (w2 :: rest) := by
          rw [List.dropWhile_append_of_pos
            (fun a ha => by simp [hw a (List.mem_cons_of_mem c ha)])]
          rw [List.dropWhile_cons_of_neg (by simp [isSpaceC])]
        rw [htake, hdrop]
        have hrec : pySplit (32 :: joinSpace (w2 :: rest)) =
            pySplit (joinSpace (w2 :: rest)) := by
          simp only [pySplit]
          rw [if_pos (by simp [isSpaceC])]
        rw [hrec, ih (fun u hu => h u (List.mem_cons_of_mem (c :: cs) hu))]

theorem pyTitleAux_append_space (rest : Str) :
    ∀ (w : Str) (prev : Bool),
      pyTitleAux prev (w ++ 32 :: rest) =
        pyTitleAux prev w ++ 32 :: pyTitleAux false rest := by
  intro w
  induction w with
  | nil =>
    intro prev
    simp only [List.nil_append, pyTitleAux]
    rw [if_neg (by simp [isAlphaC, isUpperC, isLowerC]),
      show isAlphaC 32 = false from by decide]
  | cons c cs ih =>
    intro prev
    simp only [List.cons_append, pyTitleAux, List.append_eq, ih]

theorem pyTitle_joinSpace (ts : List Str) :
    pyTitle (joinSpace ts) = joinSpace (ts.map pyTitle) := by
  induction ts with
  | nil => rfl
  | cons w ws ih =>
    cases ws with
    | nil => rfl
    | cons w2 rest =>
      show pyTitleAux false (w ++ 32 :: joinSpace (w2 :: rest)) = _
      rw [pyTitleAux_append_space]
      show _ = joinSpace (pyTitle w :: (w2 :: rest).map pyTitle)
      have hne : (w2 :: rest).map pyTitle = pyTitle w2 :: rest.map pyTitle :=
        rfl
      rw [hne]
      show _ = pyTitle w ++ 32 :: joinSpace (pyTitle w2 :: rest.map pyTitle)
      rw [← hne, ← ih]
      rfl

theorem tokens_pyTitle (ts : List Str)
    (h : ∀ w ∈ ts, w ≠ [] ∧ ∀ c ∈ w, isAlnumC c = true) :
    ∀ w ∈ ts.map pyTitle, w ≠ [] ∧ ∀ c ∈ w, isAlnumC c = true := by
  intro w hw
  rw [List.mem_map] at hw
  obtain ⟨u, hu, huw⟩ := hw
  obtain ⟨hne, halnum⟩ := h u hu
  subst huw
  constructor
  · cases u with
    | nil => exact absurd rfl hne
    | cons c cs => simp [pyTitle, pyTitleAux]
  · exact pyTitleAux_alnum u false halnum

theorem matchPre_boundary_token (ci : Bool) :
    ∀ (p w rest : Str),
      (∀ c ∈ p, isAlphaC c = true) →
      (∀ c ∈ w, isAlnumC c = true) →
      (∀ r, rest.head? = some r → isWordC r = false) →
      (matchPre ci p (w ++ rest) && boundaryOk (w ++ rest) p.length) =
        matchWhole ci p w := by
  intro p
  induction p with
  | nil =>
    intro w rest hp hw hrest
    cases w with
    | nil =>
      cases hr : rest with
      | nil => rfl
      | cons r rs =>
        simp only [matchPre, matchWhole, List.nil_append, hr, boundaryOk,
          List.drop_zero, Bool.true_and, List.length_nil]
        rw [hrest r (by rw [hr]; rfl)]
        simp
    | cons b ws =>
      simp only [matchPre, matchWhole, List.cons_append, boundaryOk,
        List.drop_zero, Bool.true_and, List.length_nil, List.length_cons]
      rw [isWordC_of_alnum (hw b (List.mem_cons_self b ws))]
      simp
  | cons a ps ih =>
    intro w rest hp hw hrest
    cases w with
    | nil =>
      cases hr : rest with
      | nil => simp [matchPre, matchWhole]
      | cons r rs =>
        simp only [List.nil_append, hr, matchPre, matchWhole, List.length_cons,
          List.length_nil]
        rw [ciEqC_alpha_nonword (hp a (List.mem_cons_self a ps))
          (hrest r (by rw [hr]; rfl))]
        simp
    | cons b ws =>
      have hshift : boundaryOk ((b :: ws) ++ rest) (ps.length + 1) =
          boundaryOk (ws ++ rest) ps.length := rfl
      show ((ciEqC ci a b && matchPre ci ps (ws ++ rest)) &&
          boundaryOk ((b :: ws) ++ rest) (ps.length + 1)) = _
      rw [hshift]
      cases hab : ciEqC ci a b with
      | false => simp [matchWhole, matchPre, hab]
      | true =>
        rw [Bool.true_and]
        rw [ih ws rest (fun c hc => hp c (List.mem_cons_of_mem a hc))
          (fun c hc => hw c (List.mem_cons_of_mem b hc)) hrest]
        simp only [matchWhole, matchPre, hab, Bool.true_and,
          List.length_cons]
        rw [show (decide (ps.length + 1 = ws.length + 1)) =
          (decide (ps.length = ws.length)) from by
            rw [decide_eq_decide]; omega]

theorem tryAlts_token (ci : Bool) (w rest : Str)
    (hw : ∀ c ∈ w, isAlnumC c = true)
    (hrest : ∀ r, rest.head? = some r → isWordC r = false) :
    ∀ alts : List (Str × Str),
      (∀ pr ∈ alts, pr.1 ≠ [] ∧ ∀ c ∈ pr.1, isAlphaC c = true) →
      tryAlts ci alts (w ++ rest) =
        (alts.find? (fun pr => matchWhole ci pr.1 w)).map
          (fun pr => (pr.2, pr.1)) := by
  intro alts
  induction alts with
  | nil => intro _; rfl
  | cons pr alts ih =>
    intro halts
    obtain ⟨hne, hp⟩ := halts pr (List.mem_cons_self pr alts)
    simp only [tryAlts]
    have hcond : (decide (pr.1 ≠ []) && matchPre ci pr.1 (w ++ rest) &&
        boundaryOk (w ++ rest) pr.1.length) = matchWhole ci pr.1 w := by
      rw [decide_eq_true hne, Bool.true_and]
      exact matchPre_boundary_token ci pr.1 w rest hp hw hrest
    rw [hcond]
    by_cases hm : matchWhole ci pr.1 w = true
    · rw [if_pos hm, List.find?_cons_of_pos alts hm]
      rfl
    · rw [if_neg (by simp [hm]), List.find?_cons_of_neg alts (by simp [hm])]
      exact ih (fun q hq => halts q (List.mem_cons_of_mem pr hq))

theorem subScan_copy (ci : Bool) (alts : List (Str × Str)) :
    ∀ (w rest : Str), (∀ c ∈ w, isWordC c = true) →
      subScan ci alts true (w ++ rest) = w ++ subScan ci alts true rest := by
  intro w
  induction w with
  | nil => intro rest _; rfl
  | cons c cs ih =>
    intro rest hw
    show subScan ci alts true (c :: (cs ++ rest)) = _
    simp only [subScan]
    rw [if_pos trivial, hw c (List.mem_cons_self c cs),
      ih rest (fun d hd => hw d (List.mem_cons_of_mem c hd))]
    rfl

theorem subScan_space_sep (ci : Bool) (alts : List (Str × Str)) (rest : Str) :
    subScan ci alts true (32 :: rest) = 32 :: subScan ci alts false rest := by
  simp only [subScan]
  rw [if_pos trivial, show isWordC 32 = false from by decide]

theorem find?_matchWhole_length {ci : Bool} {alts : List (Str × Str)}
    {w : Str} {pr : Str × Str}
    (h : alts.find? (fun pr => matchWhole ci pr.1 w) = some pr) :
    pr.1.length = w.length := by
  have hp := List.find?_some h
  simp only [matchWhole, Bool.and_eq_true, decide_eq_true_eq] at hp
  exact hp.1

theorem subScan_token_start (ci : Bool) (alts : List (Str × Str))
    (halts : ∀ pr ∈ alts, pr.1 ≠ [] ∧ ∀ c ∈ pr.1, isAlphaC c = true)
    (w rest : Str) (hne : w ≠ []) (hw : ∀ c ∈ w, isAlnumC c = true)
    (hrest : ∀ r, rest.head? = some r → isWordC r = false) :
    subScan ci alts false (w ++ rest) =
      tokenSub ci alts w ++ subScan ci alts true rest := by
  cases w with
  | nil => exact absurd rfl hne
  | cons c cs =>
    show subScan ci alts false (c :: (cs ++ rest)) = _
    simp only [subScan]
    rw [if_neg Bool.false_ne_true]
    rw [show tryAlts ci alts (c :: (cs ++ rest)) =
      tryAlts ci alts ((c :: cs) ++ rest) from rfl]
    rw [tryAlts_token ci (c :: cs) rest hw hrest alts halts]
    cases hfind : alts.find? (fun pr => matchWhole ci pr.1 (c :: cs)) with
    | none =>
      simp only [Option.map_none']
      rw [isWordC_of_alnum (hw c (List.mem_cons_self c cs))]
      rw [subScan_copy ci alts cs rest
        (fun d hd => isWordC_of_alnum (hw d (List.mem_cons_of_mem c hd)))]
      rw [tokenSub, hfind]
      rfl
    | some pr =>
      simp only [Option.map_some']
      have hlen := find?_matchWhole_length hfind
      simp only [List.length_cons] at hlen
      rw [show pr.1.length - 1 = cs.length from by omega]
      rw [List.drop_left]
      rw [tokenSub, hfind]

theorem reSub_tokens (ci : Bool) (alts : List (Str × Str))
    (halts : ∀ pr ∈ alts, pr.1 ≠ [] ∧ ∀ c ∈ pr.1, isAlphaC c = true) :
    ∀ ts : List Str, (∀ w ∈ ts, w ≠ [] ∧ ∀ c ∈ w, isAlnumC c = true) →
      reSub ci alts (joinSpace ts) = joinSpace (ts.map (tokenSub ci alts)) := by
  intro ts
  induction ts with
  | nil => intro _; simp [reSub, subScan, joinSpace]
  | cons w ws ih =>
    intro h
    obtain ⟨hne, hw⟩ := h w (List.mem_cons_self w ws)
    cases ws with
    | nil =>
      show subScan ci alts false (joinSpace [w]) = joinSpace [tokenSub ci alts w]
      show subScan ci alts false w = tokenSub ci alts w
      conv_lhs => rw [← List.append_nil w]
      rw [subScan_token_start ci alts halts w [] hne hw
        (fun r hr => by simp at hr)]
      rw [show subScan ci alts true [] = [] from by simp [subScan]]
      exact List.append_nil _
    | cons w2 rest =>
      show subScan ci alts false (w ++ 32 :: joinSpace (w2 :: rest)) = _
      rw [subScan_token_start ci alts halts w _ hne hw
        (fun r hr => by
          simp only [List.head?_cons, Option.some.injEq] at hr
          rw [← hr]
          decide)]
      rw [subScan_space_sep]
      have hJ := ih (fun u hu => h u (List.mem_cons_of_mem w hu))
      rw [reSub] at hJ
      rw [hJ]
      simp only [List.map_cons, joinSpace]

theorem ciEqC_false_eq (a b : Nat) : ciEqC false a b = decide (a = b) := by
  simp [ciEqC]

theorem ciEqC_true_eq (a b : Nat) : ciEqC true a b = decide (lowerC a = lowerC b) := by
  simp [ciEqC]

theorem matchWhole_false_iff (p : Str) :
    ∀ w : Str, matchWhole false p w = decide (p = w) := by
  induction p with
  | nil =>
    intro w
    cases w <;> simp [matchWhole, matchPre]
  | cons a ps ih =>
    intro w
    cases w with
    | nil => simp [matchWhole, matchPre]
    | cons b ws =>
      rw [Bool.eq_iff_iff]
      simp only [matchWhole, matchPre, ciEqC_false_eq, Bool.and_eq_true,
        decide_eq_true_eq, List.length_cons, List.cons.injEq]
      have hih := ih ws
      rw [Bool.eq_iff_iff] at hih
      simp only [matchWhole, Bool.and_eq_true, decide_eq_true_eq] at hih
      constructor
      · rintro ⟨hlen, hab, hrest⟩
        exact ⟨hab, (hih.mp ⟨by omega, hrest⟩)⟩
      · rintro ⟨hab, hps⟩
        obtain ⟨hlen, hrest⟩ := hih.mpr hps
        exact ⟨by omega, hab, hrest⟩

theorem matchWhole_true_iff (p : Str) :
    ∀ w : Str, matchWhole true p w = decide (pyLower p = pyLower w) := by
  induction p with
  | nil =>
    intro w
    cases w <;> simp [matchWhole, matchPre, pyLower]
  | cons a ps ih =>
    intro w
    cases w with
    | nil => simp [matchWhole, matchPre, pyLower]
    | cons b ws =>
      rw [Bool.eq_iff_iff]
      simp only [matchWhole, matchPre, ciEqC_true_eq, Bool.and_eq_true,
        decide_eq_true_eq, List.length_cons, pyLower, List.map_cons,
        List.cons.injEq]
      have hih := ih ws
      rw [Bool.eq_iff_iff] at hih
      simp only [matchWhole, Bool.and_eq_true, decide_eq_true_eq, pyLower] at hih
      constructor
      · rintro ⟨hlen, hab, hrest⟩
        exact ⟨hab, hih.mp ⟨by omega, hrest⟩⟩
      · rintro ⟨hab, hps⟩
        obtain ⟨hlen, hrest⟩ := hih.mpr hps
        exact ⟨by omega, hab, hrest⟩

theorem tokenSub_dir (w : Str) :
    tokenSub false (DIRECTIONAL_WORDS.map (fun p => (p, p.take 1))) w =
      dirToken w := by
  unfold tokenSub dirToken
  rw [List.find?_map]
  have hpred : ((fun pr : Str × Str => matchWhole false pr.1 w) ∘
      (fun p : Str => (p, p.take 1))) = (fun d : Str => decide (d = w)) := by
    funext p
    simp [Function.comp, matchWhole_false_iff]
  rw [hpred]
  cases DIRECTIONAL_WORDS.find? (fun d => decide (d = w)) <;> simp

theorem tokenSub_single_street (p r w : Str) :
    tokenSub true [(p, r)] w = if pyLower w = pyLower p then r else w := by
  unfold tokenSub
  by_cases h : pyLower p = pyLower w
  · rw [List.find?_cons_of_pos _ (by rw [matchWhole_true_iff]; simpa using h)]
    rw [if_pos h.symm]
  · rw [List.find?_cons_of_neg _ (by rw [matchWhole_true_iff]; simpa using h)]
    rw [if_neg (fun hc => h hc.symm)]
    rfl

/-- Token invariant preservation by `tokenSub`. -/
theorem tokenSub_tokens (ci : Bool) (alts : List (Str × Str))
    (hrep : ∀ pr ∈ alts, pr.2 ≠ [] ∧ ∀ c ∈ pr.2, isAlnumC c = true)
    (w : Str) (hw : w ≠ [] ∧ ∀ c ∈ w, isAlnumC c = true) :
    tokenSub ci alts w ≠ [] ∧ ∀ c ∈ tokenSub ci alts w, isAlnumC c = true := by
  unfold tokenSub
  cases hfind : alts.find? (fun pr => matchWhole ci pr.1 w) with
  | none => exact hw
  | some pr => exact hrep pr (List.mem_of_find?_eq_some hfind)

theorem streetPasses_tokens :
    ∀ (passes : List (Str × Str)),
      (∀ pr ∈ passes,
        (pr.1 ≠ [] ∧ ∀ c ∈ pr.1, isAlphaC c = true) ∧
        (pr.2 ≠ [] ∧ ∀ c ∈ pr.2, isAlnumC c = true)) →
      ∀ ts : List Str, (∀ w ∈ ts, w ≠ [] ∧ ∀ c ∈ w, isAlnumC c = true) →
        passes.foldl (fun acc pr => reSub true [pr] acc) (joinSpace ts) =
          joinSpace (ts.map (fun w =>
            passes.foldl (fun w pr => tokenSub true [pr] w) w)) := by
  intro passes
  induction passes with
  | nil =>
    intro _ ts _
    simp
  | cons pr ps ih =>
    intro hp ts hts
    show ps.foldl _ (reSub true [pr] (joinSpace ts)) = _
    rw [reSub_tokens true [pr]
      (by
        intro q hq
        rw [List.mem_singleton] at hq
        rw [hq]
        exact (hp pr (List.mem_cons_self pr ps)).1) ts hts]
    have hts' : ∀ w ∈ ts.map (tokenSub true [pr]),
        w ≠ [] ∧ ∀ c ∈ w, isAlnumC c = true := by
      intro w hw
      rw [List.mem_map] at hw
      obtain ⟨u, hu, huw⟩ := hw
      subst huw
      exact tokenSub_tokens true [pr]
        (by
          intro q hq
          rw [List.mem_singleton] at hq
          rw [hq]
          exact (hp pr (List.mem_cons_self pr ps)).2) u (hts u hu)
    rw [ih (fun q hq => hp q (List.mem_cons_of_mem pr hq)) _ hts']
    rw [List.map_map]
    rfl

theorem pyStrip_eq_self (s : Str)
    (h1 : ∀ c, s.head? = some c → isSpaceC c = false)
    (h2 : ∀ c, s.getLast? = some c → isSpaceC c = false) :
    pyStrip s = s := by
  unfold pyStrip
  have hd : s.dropWhile isSpaceC = s := by
    cases s with
    | nil => rfl
    | cons c cs => rw [List.dropWhile_cons_of_neg (by simp [h1 c rfl])]
  rw [hd]
  have hd2 : s.reverse.dropWhile isSpaceC = s.reverse := by
    cases hs : s.reverse with
    | nil => rfl
    | cons c cs =>
      have hlast : s.getLast? = some c := by
        rw [List.getLast?_eq_head?_reverse, hs]
        rfl
      rw [List.dropWhile_cons_of_neg (by simp [h2 c hlast])]
  rw [hd2, s.reverse_reverse]

theorem joinSpace_head_token (ts : List Str)
    (h : ∀ w ∈ ts, w ≠ [] ∧ ∀ c ∈ w, isAlnumC c = true) :
    ∀ c, (joinSpace ts).head? = some c → isAlnumC c = true := by
  intro c hc
  cases ts with
  | nil => simp [joinSpace] at hc
  | cons w ws =>
    obtain ⟨hne, hw⟩ := h w (List.mem_cons_self w ws)
    cases w with
    | nil => exact absurd rfl hne
    | cons a u =>
      cases ws with
      | nil =>
        simp only [joinSpace, List.head?_cons, Option.some.injEq] at hc
        rw [← hc]
        exact hw a (List.mem_cons_self a u)
      | cons w2 rest =>
        have : joinSpace ((a :: u) :: w2 :: rest) =
            a :: (u ++ 32 :: joinSpace (w2 :: rest)) := rfl
        rw [this, List.head?_cons, Option.some.injEq] at hc
        rw [← hc]
        exact hw a (List.mem_cons_self a u)

theorem joinSpace_getLast_token (ts : List Str)
    (h : ∀ w ∈ ts, w ≠ [] ∧ ∀ c ∈ w, isAlnumC c = true) :
    ∀ c, (joinSpace ts).getLast? = some c → isAlnumC c = true := by
  induction ts with
  | nil => intro c hc; simp [joinSpace] at hc
  | cons w ws ih =>
    intro c hc
    obtain ⟨hne, hw⟩ := h w (List.mem_cons_self w ws)
    cases ws with
    | nil =>
      show isAlnumC c = true
      have : (joinSpace [w]).getLast? = w.getLast? := rfl
      rw [this] at hc
      have hmem : c ∈ w := by
        rw [List.getLast?_eq_head?_reverse] at hc
        cases hrev : w.reverse with
        | nil => rw [hrev] at hc; simp at hc
        | cons d ds =>
          rw [hrev, List.head?_cons, Option.some.injEq] at hc
          rw [← List.mem_reverse, hrev, ← hc]
          exact List.mem_cons_self d ds
      exact hw c hmem
    | cons w2 rest =>
      have hJne : joinSpace (w2 :: rest) ≠ [] := by
        obtain ⟨hne2, _⟩ := h w2 (List.mem_cons_of_mem w (List.mem_cons_self w2 rest))
        cases w2 with
        | nil => exact absurd rfl hne2
        | cons b v =>
          cases rest <;> simp [joinSpace]
      have hjoin : joinSpace (w :: w2 :: rest) =
          w ++ 32 :: joinSpace (w2 :: rest) := rfl
      rw [hjoin, List.getLast?_append] at hc
      have h32 : (32 :: joinSpace (w2 :: rest)).getLast? =
          (joinSpace (w2 :: rest)).getLast? := by
        cases hj : joinSpace (w2 :: rest) with
        | nil => exact absurd hj hJne
        | cons d ds => simp [List.getLast?_cons_cons]
      rw [h32] at hc
      have hsome : (joinSpace (w2 :: rest)).getLast?.isSome := by
        cases hj : joinSpace (w2 :: rest) with
        | nil => exact absurd hj hJne
        | cons d ds => simp
      rw [Option.or_of_isSome hsome] at hc
      exact ih (fun u hu => h u (List.mem_cons_of_mem w hu)) c hc

theorem dirAlts_patterns_ok :
    ∀ pr ∈ DIRECTIONAL_WORDS.map (fun p => (p, p.take 1)),
      (pr.1 : Str) ≠ [] ∧ ∀ c ∈ pr.1, isAlphaC c = true := by
  decide

theorem street_types_ok :
    ∀ pr ∈ STREET_TYPES,
      ((pr.1 : Str) ≠ [] ∧ ∀ c ∈ pr.1, isAlphaC c = true) ∧
      ((pr.2 : Str) ≠ [] ∧ ∀ c ∈ pr.2, isAlnumC c = true) := by
  decide

theorem dir_take_ok : ∀ d ∈ DIRECTIONAL_WORDS, dirToken d = d.take 1 := by
  decide

theorem dirToken_tokens (w : Str) (hw : w ≠ [] ∧ ∀ c ∈ w, isAlnumC c = true) :
    dirToken w ≠ [] ∧ ∀ c ∈ dirToken w, isAlnumC c = true := by
  unfold dirToken
  cases hfind : DIRECTIONAL_WORDS.find? (fun d => decide (d = w)) with
  | none => exact hw
  | some d =>
    have hd : d ∈ DIRECTIONAL_WORDS := List.mem_of_find?_eq_some hfind
    revert hd
    have : ∀ d ∈ DIRECTIONAL_WORDS,
        (d.take 1 : Str) ≠ [] ∧ ∀ c ∈ d.take 1, isAlnumC c = true := by decide
    exact this d

theorem foldl_street_tokens_aux (l : List (Str × Str)) :
    ∀ w : Str, (w ≠ [] ∧ ∀ c ∈ w, isAlnumC c = true) →
      (∀ pr ∈ l, (pr.2 : Str) ≠ [] ∧ ∀ c ∈ pr.2, isAlnumC c = true) →
      l.foldl (fun w pr => if pyLower w = pyLower pr.1 then pr.2 else w) w ≠ [] ∧
      ∀ c ∈ l.foldl (fun w pr => if pyLower w = pyLower pr.1 then pr.2 else w) w,
        isAlnumC c = true := by
  induction l with
  | nil => intro w hw _; exact hw
  | cons pr ps ih =>
    intro w hw hrep
    rw [List.foldl_cons]
    by_cases hcond : pyLower w = pyLower pr.1
    · rw [if_pos hcond]
      exact ih pr.2 (hrep pr (List.mem_cons_self pr ps))
        (fun q hq => hrep q (List.mem_cons_of_mem pr hq))
    · rw [if_neg hcond]
      exact ih w hw (fun q hq => hrep q (List.mem_cons_of_mem pr hq))

theorem street_values_ok : ∀ pr ∈ STREET_TYPES, (pr.2 : Str) ≠ [] ∧
    ∀ c ∈ pr.2, isAlnumC c = true := by decide

theorem streetTypeToken_tokens (w : Str)
    (hw : w ≠ [] ∧ ∀ c ∈ w, isAlnumC c = true) :
    streetTypeToken w ≠ [] ∧ ∀ c ∈ streetTypeToken w, isAlnumC c = true := by
  unfold streetTypeToken
  exact foldl_street_tokens_aux STREET_TYPES w hw street_values_ok

theorem foldl_tokenSub_street (w : Str) :
    STREET_TYPES.foldl (fun w pr => tokenSub true [pr] w) w =
      streetTypeToken w := by
  unfold streetTypeToken
  generalize STREET_TYPES = l
  induction l generalizing w with
  | nil => rfl
  | cons pr ps ih =>
    show ps.foldl _ (tokenSub true [pr] w) = ps.foldl _ _
    rw [tokenSub_single_street pr.1 pr.2 w]
    exact ih _

/-- C6 amended: on a whitespace-separated street string of alphanumeric
tokens, `normalize_street` acts token by token: each token is title-cased;
a token that is then exactly one of the directional words is replaced by the
FIRST letter of the matched word only (North→N, but also Northeast→N and
Southwest→S, never NE or SW), and the street-type passes abbreviate
street-type tokens case-insensitively in dict order. -/
theorem normalize_street_token_normalization (ts : List Str)
    (h : ∀ w ∈ ts, w ≠ [] ∧ ∀ c ∈ w, isAlnumC c = true) :
    normalize_street (joinSpace ts) = joinSpace (ts.map streetToken) ∧
    (∀ d ∈ DIRECTIONAL_WORDS, dirToken d = d.take 1) := by
  refine ⟨?_, dir_take_ok⟩
  rw [normalize_street_eq_pipeline]
  have hsp : ∀ w ∈ ts, w ≠ [] ∧ ∀ c ∈ w, isSpaceC c = false :=
    fun w hw => ⟨(h w hw).1, fun c hc => isSpaceC_of_alnum ((h w hw).2 c hc)⟩
  rw [pySplit_joinSpace ts hsp, pyTitle_joinSpace]
  have hts1 := tokens_pyTitle ts h
  show pyStrip (subStreetTypes (subDirectionals (joinSpace (ts.map pyTitle)))) = _
  rw [subDirectionals]
  rw [reSub_tokens false (DIRECTIONAL_WORDS.map (fun p => (p, p.take 1)))
    dirAlts_patterns_ok (ts.map pyTitle) hts1]
  have hdir : tokenSub false (DIRECTIONAL_WORDS.map (fun p => (p, p.take 1))) =
      dirToken := funext tokenSub_dir
  rw [hdir]
  have hts2 : ∀ w ∈ (ts.map pyTitle).map dirToken,
      w ≠ [] ∧ ∀ c ∈ w, isAlnumC c = true := by
    intro w hw
    rw [List.mem_map] at hw
    obtain ⟨u, hu, huw⟩ := hw
    subst huw
    exact dirToken_tokens u (hts1 u hu)
  rw [subStreetTypes]
  rw [streetPasses_tokens STREET_TYPES street_types_ok _ hts2]
  have hst : (fun w => STREET_TYPES.foldl (fun w pr => tokenSub true [pr] w) w) =
      streetTypeToken := funext foldl_tokenSub_street
  rw [hst]
  have hts3 : ∀ w ∈ ((ts.map pyTitle).map dirToken).map streetTypeToken,
      w ≠ [] ∧ ∀ c ∈ w, isAlnumC c = true := by
    intro w hw
    rw [List.mem_map] at hw
    obtain ⟨u, hu, huw⟩ := hw
    subst huw
    exact streetTypeToken_tokens u (hts2 u hu)
  rw [pyStrip_eq_self _
    (fun c hc => isSpaceC_of_alnum (joinSpace_head_token _ hts3 c hc))
    (fun c hc => isSpaceC_of_alnum (joinSpace_getLast_token _ hts3 c hc))]
  have hfun : ∀ w, streetTypeToken (dirToken (pyTitle w)) = streetToken w :=
    fun w => rfl
  have hmaps : ∀ us : List Str,
      ((us.map pyTitle).map dirToken).map streetTypeToken =
        us.map streetToken := by
    intro us
    induction us with
    | nil => simp only [List.map_nil]
    | cons u tl ih =>
      simp only [List.map_cons]
      rw [hfun u, ih]
  rw [hmaps ts]

/-- C6 witness: the token list ["123", "Northeast", "Ave"] is mapped token by
token, and every directional word maps to its first letter. -/
theorem normalize_street_token_normalization_witness :
    (∀ w ∈ [ascii "123", ascii "Northeast", ascii "Ave"],
      w ≠ [] ∧ ∀ c ∈ w, isAlnumC c = true) ∧
    normalize_street (joinSpace [ascii "123", ascii "Northeast", ascii "Ave"]) =
      joinSpace ([ascii "123", ascii "Northeast", ascii "Ave"].map streetToken) :=
  ⟨by decide,
   (normalize_street_token_normalization
     [ascii "123", ascii "Northeast", ascii "Ave"] (by decide)).1⟩

end FSBO
